import Mathlib

/-!
# A shallow embedding of the fs-gdrive mirror-tree cache

This file embeds the core of the `fs-gdrive` package:

* `src/classes/node.ts` — the mirror `Node` (one remote object, with a
  lazily populated child list and a parent back-reference);
* `src/classes/gdrive.ts` — the path resolver / mirror cache (`#resolvePath`)
  and the public operations (`readdir`, `mkdir`, `writeFile`, `readFile`,
  `unlink`, `rename`, `stat`, `search`, `copy`).

JS objects are mutable and aliased, so the mirror tree is embedded as a heap:
a list of node records (`Cache.store`) addressed by index ("references"),
plus the root reference.  Mutation of a node becomes an update of its record
in the store; `node.parent`/`node.children` hold references.

The remote store (Google Drive) is opaque in the source (only
`files.list/get/create/update/delete/copy` are used); it is embedded as a
list of remote entries plus a failure switch (`fail`) that makes every
remote call raise, modelling transport errors.  Timestamps are carried as
`Option Int` (milliseconds); they are never interpreted by the claims.
-/

/-- Mime type marker for folders (`DriveMimeTypes.Folder` in the source). -/
def folderMimeType : String := "application/vnd.google-apps.folder"

/-- One mirror node (`class Node` in `src/classes/node.ts`).  `children` and
`parent` hold references (indices) into the cache store; `children = none`
means "unpopulated" (the field is absent on the JS object). -/
structure Node where
  id : String
  name : String
  mimeType : String
  size : Nat
  modifiedTime : Option Int
  createdTime : Option Int
  children : Option (List Nat)
  parent : Option Nat
deriving Repr, DecidableEq

/-- `Node.isDirectory()`: classification from the mime type. -/
def Node.isDirectory (n : Node) : Bool := n.mimeType == folderMimeType

/-- `Node.isFile()`: the negation of `isDirectory()`. -/
def Node.isFile (n : Node) : Bool := !n.isDirectory

/-- The mirror tree: a heap of node records plus the root reference
(`GDrive.#rootNode`). -/
structure Cache where
  store : List Node
  root : Nat
deriving Repr, DecidableEq

/-- Placeholder record returned when dereferencing an invalid reference;
its mime type is not the folder marker and it has no children or parent,
so it behaves inertly.  Valid executions never dereference invalid refs. -/
def dummyNode : Node := ⟨"", "", "", 0, none, none, none, none⟩

def Cache.getRec (c : Cache) (r : Nat) : Node := (c.store.get? r).getD dummyNode

def Cache.setRec (c : Cache) (r : Nat) (n : Node) : Cache := ⟨c.store.set r n, c.root⟩

def Cache.modifyRec (c : Cache) (r : Nat) (f : Node → Node) : Cache :=
  c.setRec r (f (c.getRec r))

/-- Allocate a fresh node object; returns the new cache and the reference. -/
def Cache.alloc (c : Cache) (n : Node) : Cache × Nat :=
  (⟨c.store ++ [n], c.root⟩, c.store.length)

/-- `Node.addChild(child)` from the source:
no-op unless `self` is a directory; otherwise initialize `children` if
absent, push `child`, and set `child.parent = self`. -/
def Cache.addChild (c : Cache) (self child : Nat) : Cache :=
  if (c.getRec self).isDirectory then
    let c1 := c.modifyRec self
      (fun n => { n with children := some (n.children.getD [] ++ [child]) })
    c1.modifyRec child (fun n => { n with parent := some self })
  else c

/-- `Node.removeChild(childId)` from the source: if `children` is absent,
return `false`; otherwise remove the first child whose `id` matches and
return whether a removal occurred. -/
def Cache.removeChild (c : Cache) (self : Nat) (childId : String) : Cache × Bool :=
  match (c.getRec self).children with
  | none => (c, false)
  | some l =>
    match l.findIdx? (fun cr => (c.getRec cr).id == childId) with
    | none => (c, false)
    | some i =>
      (c.modifyRec self (fun n => { n with children := some (l.eraseIdx i) }), true)

/-- `Node.getSize()` from the source: a file reports its stored size, a
folder sums `getSize()` over its current children (`children || []`).
The JS recursion is unbounded (and diverges on a cyclic child graph); the
embedding uses explicit fuel, returning 0 on exhaustion. -/
def Cache.getSize (c : Cache) : Nat → Nat → Nat
  | 0, _ => 0
  | fuel + 1, ref =>
    let n := c.getRec ref
    if n.isFile then n.size
    else ((n.children.getD []).map (fun cr => c.getSize fuel cr)).sum

/-- `Node.getLastModified()` from the source: a file reports its stored
timestamp, a folder the maximum over children's results, ignoring `none`s
(`null`s), or `none` when there are none.  Fueled like `getSize`. -/
def Cache.getLastModified (c : Cache) : Nat → Nat → Option Int
  | 0, _ => none
  | fuel + 1, ref =>
    let n := c.getRec ref
    if n.isFile then n.modifiedTime
    else
      let ds := ((n.children.getD []).map (fun cr => c.getLastModified fuel cr)).filterMap id
      match ds with
      | [] => none
      | d :: rest => some (rest.foldl max d)

/-- Inner loop of `Node.getPath()`: prepend ancestor names while a parent
link is present.  Fueled; the JS loop is unbounded on parent cycles. -/
def Cache.getPathAux (c : Cache) : Nat → Option Nat → String → String
  | _, none, acc => "/" ++ acc
  | 0, some _, acc => "/" ++ acc
  | fuel + 1, some r, acc =>
    c.getPathAux fuel (c.getRec r).parent ((c.getRec r).name ++ "/" ++ acc)

/-- `Node.getPath()` from the source: the node's own name prefixed by all
ancestor names, with a single leading slash. -/
def Cache.getPath (c : Cache) (fuel ref : Nat) : String :=
  c.getPathAux fuel (c.getRec ref).parent (c.getRec ref).name

/-! ## The remote store

The boundary contract of §6 of the design: an opaque service addressed by
ids, offering list/get/create/update/delete/copy.  `fail = some msg` makes
every call raise `msg` (a transport/store error). -/

/-- One remote entry (a `drive_v3.Schema$File`). -/
structure RFile where
  id : String
  name : String
  mimeType : String
  size : Nat
  modifiedTime : Option Int
  createdTime : Option Int
  content : String
  parents : List String
deriving Repr, DecidableEq

structure Remote where
  files : List RFile
  fail : Option String
  nextId : Nat
deriving Repr, DecidableEq

/-- `files.list` with query `'{pid}' in parents and name = '{name}' and trashed = false`. -/
def Remote.listByName (r : Remote) (pid name : String) : Except String (List RFile) :=
  match r.fail with
  | some m => .error m
  | none => .ok (r.files.filter (fun f => f.parents.contains pid && f.name == name))

/-- `files.list` with query `'{pid}' in parents and trashed = false`. -/
def Remote.listChildren (r : Remote) (pid : String) : Except String (List RFile) :=
  match r.fail with
  | some m => .error m
  | none => .ok (r.files.filter (fun f => f.parents.contains pid))

/-- `files.get` with `alt: 'media'`: fetch raw content by id. -/
def Remote.getContent (r : Remote) (id : String) : Except String String :=
  match r.fail with
  | some m => .error m
  | none =>
    match r.files.find? (fun f => f.id == id) with
    | none => .error "Remote entry not found"
    | some f => .ok f.content

/-- `files.create`: create a new entry with a fresh id under `pid`. -/
def Remote.createFile (r : Remote) (pid name mimeType content : String) (size : Nat) :
    Except String (RFile × Remote) :=
  match r.fail with
  | some m => .error m
  | none =>
    let f : RFile := ⟨"id-" ++ toString r.nextId, name, mimeType, size, none, none,
      content, [pid]⟩
    .ok (f, ⟨r.files ++ [f], r.fail, r.nextId + 1⟩)

def RFile.applyUpdate (f : RFile) (newName newContent addParent removeParent : Option String) :
    RFile :=
  let f1 := match newName with | some nm => { f with name := nm } | none => f
  let f2 := match newContent with
    | some ct => { f1 with content := ct, size := ct.length }
    | none => f1
  match addParent with
  | some ap =>
    let ps := match removeParent with
      | some rp => f2.parents.filter (fun p => p != rp)
      | none => f2.parents
    { f2 with parents := ps ++ [ap] }
  | none => f2

/-- `files.update`: patch name/content/parents of the entry with the given id. -/
def Remote.updateFile (r : Remote) (id : String)
    (newName newContent addParent removeParent : Option String) :
    Except String (RFile × Remote) :=
  match r.fail with
  | some m => .error m
  | none =>
    match r.files.find? (fun f => f.id == id) with
    | none => .error "Remote entry not found"
    | some f =>
      let f' := f.applyUpdate newName newContent addParent removeParent
      .ok (f', ⟨r.files.map (fun g => if g.id == id then f' else g), r.fail, r.nextId⟩)

/-- `files.delete`: remove the entry with the given id. -/
def Remote.deleteFile (r : Remote) (id : String) : Except String Remote :=
  match r.fail with
  | some m => .error m
  | none =>
    if r.files.any (fun f => f.id == id) then
      .ok ⟨r.files.filter (fun f => f.id != id), r.fail, r.nextId⟩
    else .error "Remote entry not found"

/-- `files.copy`: server-side copy of `id` under `destPid` with a new name
and a fresh id. -/
def Remote.copyFile (r : Remote) (id destPid newName : String) :
    Except String (RFile × Remote) :=
  match r.fail with
  | some m => .error m
  | none =>
    match r.files.find? (fun f => f.id == id) with
    | none => .error "Remote entry not found"
    | some f =>
      let f' : RFile := ⟨"id-" ++ toString r.nextId, newName, f.mimeType, f.size,
        f.modifiedTime, f.createdTime, f.content, [destPid]⟩
      .ok (f', ⟨r.files ++ [f'], r.fail, r.nextId + 1⟩)

/-- Materialize a remote entry as a fresh mirror node (the `new Node({...})`
calls in the source: children and parent start absent). -/
def nodeOfRFile (f : RFile) : Node :=
  ⟨f.id, f.name, f.mimeType, f.size, f.modifiedTime, f.createdTime, none, none⟩

/-! ## Path helpers

`path.split('/')` and friends, embedded as structural recursion over the
character list so that concrete computations reduce in the kernel. -/

/-- JS `path.split('/')`: split at every slash, keeping empty segments. -/
def splitSlash : List Char → List Char → List String
  | [], acc => [String.mk acc.reverse]
  | '/' :: rest, acc => String.mk acc.reverse :: splitSlash rest []
  | ch :: rest, acc => splitSlash rest (ch :: acc)

def splitParts (s : String) : List String := splitSlash s.data []

/-- `path.split('/').filter(Boolean)`: non-empty segments. -/
def segsOf (s : String) : List String := (splitParts s).filter (fun x => x ≠ "")

/-- JS `arr.join('/')`. -/
def joinSlash : List String → String
  | [] => ""
  | [x] => x
  | x :: xs => x ++ "/" ++ joinSlash xs

/-- `path.split('/').slice(0, -1).join('/') || '/'`: the parent path. -/
def parentPathOf (p : String) : String :=
  let j := joinSlash (splitParts p).dropLast
  if j = "" then "/" else j

/-- `path.split('/').pop()`: the leaf name. -/
def leafOf (p : String) : String := (splitParts p).getLastD ""

/-! ## The path resolver (`GDrive.#resolvePath`) -/

/-- Errors raised inside `#resolvePath`, with their exact source messages
recovered by `RErr.message`. -/
inductive RErr where
  | notADirectory (nodeName : String)
  | pathNotFound (path : String)
  | remote (msg : String)
deriving Repr, DecidableEq

def RErr.message : RErr → String
  | .notADirectory n => n ++ " is not a directory"
  | .pathNotFound p => "Path not found: " ++ p
  | .remote m => m

/-- Look up a segment among the current node's cached children:
`currentNode.children?.find(child => child.name === part)`. -/
def findChildByName (c : Cache) (cur : Nat) (part : String) : Option Nat :=
  match (c.getRec cur).children with
  | none => none
  | some l => l.find? (fun cr => (c.getRec cr).name == part)

/-- The segment loop of `#resolvePath`.  Returns the resolution result, the
(possibly extended) cache, and the number of remote calls issued.  `full` is
the original path string, used verbatim in the `Path not found` message. -/
def resolveSegs (r : Remote) (full : String) :
    List String → Nat → Cache → (Except RErr Nat) × Cache × Nat
  | [], cur, c => (.ok cur, c, 0)
  | part :: rest, cur, c =>
    let n := c.getRec cur
    if n.isDirectory then
      match findChildByName c cur part with
      | some childRef => resolveSegs r full rest childRef c
      | none =>
        match r.listByName n.id part with
        | .error m => (.error (.remote m), c, 1)
        | .ok [] => (.error (.pathNotFound full), c, 1)
        | .ok (f :: _) =>
          let a := c.alloc (nodeOfRFile f)
          let c2 := a.1.addChild cur a.2
          let out := resolveSegs r full rest a.2 c2
          (out.1, out.2.1, out.2.2 + 1)
    else (.error (.notADirectory n.name), c, 0)

/-- `GDrive.#resolvePath(path)`.  `'/'` short-circuits to the root node;
otherwise the non-empty segments are walked from the root. -/
def resolvePath (c : Cache) (r : Remote) (path : String) :
    (Except RErr Nat) × Cache × Nat :=
  if path = "/" then (.ok c.root, c, 0)
  else resolveSegs r path (segsOf path) c.root c

/-! ## The operation layer

Each public operation is a function `Cache → Remote → args →
(Except String α) × Cache × Remote`.  The state components are returned
whether the call succeeds or raises, because JS mutations performed before a
throw persist.  Each operation `X` is a raw body wrapped once by its
`catch`-block prefix (`"Failed to X: " ++ cause`), mirroring the single
try/catch per operation in the source.  `connect`/`autoConnect` (session
renewal, real-time based) are outside the embedding: operations run on a
connected instance with an established root node. -/

def wrapErr (pre : String) : Except String α → Except String α
  | .error m => .error (pre ++ m)
  | .ok v => .ok v

/-- The `res.data.files!.map(...)` loop of `readdir`: allocate a node per
remote entry and `addChild` it to `node`, collecting the fresh references. -/
def attachAll (node : Nat) : List RFile → Cache → Cache × List Nat
  | [], c => (c, [])
  | f :: fs, c =>
    let a := c.alloc (nodeOfRFile f)
    let c2 := a.1.addChild node a.2
    let out := attachAll node fs c2
    (out.1, a.2 :: out.2)

def readdirBody (c : Cache) (r : Remote) (path : String) :
    (Except String (List Nat)) × Cache × Remote :=
  match resolvePath c r path with
  | (.error e, c1, _) => (.error e.message, c1, r)
  | (.ok node, c1, _) =>
    if (c1.getRec node).isDirectory then
      match r.listChildren (c1.getRec node).id with
      | .error m => (.error m, c1, r)
      | .ok files =>
        let out := attachAll node files c1
        let c3 := out.1.modifyRec node (fun n => { n with children := some out.2 })
        (.ok out.2, c3, r)
    else (.error "Not a directory", c1, r)

/-- `GDrive.readdir(path)`. -/
def readdirOp (c : Cache) (r : Remote) (path : String) :
    (Except String (List Nat)) × Cache × Remote :=
  let out := readdirBody c r path
  (wrapErr "Failed to read directory: " out.1, out.2)

def mkdirBody (c : Cache) (r : Remote) (path : String) :
    (Except String Nat) × Cache × Remote :=
  let parentPath := parentPathOf path
  let folderName := leafOf path
  match resolvePath c r parentPath with
  | (.error e, c1, _) => (.error e.message, c1, r)
  | (.ok parentNode, c1, _) =>
    match r.createFile (c1.getRec parentNode).id folderName folderMimeType "" 0 with
    | .error m => (.error m, c1, r)
    | .ok (entry, r') =>
      let a := c1.alloc (nodeOfRFile entry)
      let c2 := a.1.addChild parentNode a.2
      (.ok a.2, c2, r')

/-- `GDrive.mkdir(path)`. -/
def mkdirOp (c : Cache) (r : Remote) (path : String) :
    (Except String Nat) × Cache × Remote :=
  let out := mkdirBody c r path
  (wrapErr "Failed to create directory: " out.1, out.2)

/-- `GDrive.#findFileInFolder(folderId, fileName)`: a name-filtered listing
against the parent, returning the first hit (or `null`), wrapped once. -/
def findFileInFolder (r : Remote) (folderId fileName : String) :
    Except String (Option RFile) :=
  wrapErr "Failed to search for file: "
    (match r.listByName folderId fileName with
     | .error m => .error m
     | .ok files => .ok files.head?)

def writeFileBody (c : Cache) (r : Remote) (path content : String) :
    (Except String Nat) × Cache × Remote :=
  let parentPath := parentPathOf path
  let fileName := leafOf path
  match resolvePath c r parentPath with
  | (.error e, c1, _) => (.error e.message, c1, r)
  | (.ok parentNode, c1, _) =>
    match findFileInFolder r (c1.getRec parentNode).id fileName with
    | .error m => (.error m, c1, r)
    | .ok (some existing) =>
      match r.updateFile existing.id (some fileName) (some content) none none with
      | .error m => (.error m, c1, r)
      | .ok (entry, r') =>
        let a := c1.alloc (nodeOfRFile entry)
        let c2 :=
          match (a.1.getRec parentNode).children with
          | none => a.1
          | some l =>
            match l.findIdx? (fun cr => (a.1.getRec cr).id == existing.id) with
            | none => a.1
            | some i =>
              a.1.modifyRec parentNode (fun n => { n with children := some (l.set i a.2) })
        (.ok a.2, c2, r')
    | .ok none =>
      match r.createFile (c1.getRec parentNode).id fileName "text/plain" content
          content.length with
      | .error m => (.error m, c1, r)
      | .ok (entry, r') =>
        let a := c1.alloc (nodeOfRFile entry)
        let c2 := a.1.addChild parentNode a.2
        (.ok a.2, c2, r')

/-- `GDrive.writeFile(path, content)`. -/
def writeFileOp (c : Cache) (r : Remote) (path content : String) :
    (Except String Nat) × Cache × Remote :=
  let out := writeFileBody c r path content
  (wrapErr "Failed to write file: " out.1, out.2)

def readFileBody (c : Cache) (r : Remote) (path : String) :
    (Except String String) × Cache × Remote :=
  match resolvePath c r path with
  | (.error e, c1, _) => (.error e.message, c1, r)
  | (.ok node, c1, _) =>
    if (c1.getRec node).isDirectory then
      (.error "Cannot read a directory as a file", c1, r)
    else
      match r.getContent (c1.getRec node).id with
      | .error m => (.error m, c1, r)
      | .ok s => (.ok s, c1, r)

/-- `GDrive.readFile(path)`. -/
def readFileOp (c : Cache) (r : Remote) (path : String) :
    (Except String String) × Cache × Remote :=
  let out := readFileBody c r path
  (wrapErr "Failed to read file: " out.1, out.2)

def unlinkBody (c : Cache) (r : Remote) (path : String) :
    (Except String Unit) × Cache × Remote :=
  match resolvePath c r path with
  | (.error e, c1, _) => (.error e.message, c1, r)
  | (.ok node, c1, _) =>
    match r.deleteFile (c1.getRec node).id with
    | .error m => (.error m, c1, r)
    | .ok r' =>
      match (c1.getRec node).parent with
      | some p => (.ok (), (c1.removeChild p (c1.getRec node).id).1, r')
      | none => (.ok (), c1, r')

/-- `GDrive.unlink(path)`. -/
def unlinkOp (c : Cache) (r : Remote) (path : String) :
    (Except String Unit) × Cache × Remote :=
  let out := unlinkBody c r path
  (wrapErr "Failed to delete file/directory: " out.1, out.2)

def renameBody (c : Cache) (r : Remote) (oldPath newPath : String) :
    (Except String Nat) × Cache × Remote :=
  match resolvePath c r oldPath with
  | (.error e, c1, _) => (.error e.message, c1, r)
  | (.ok node, c1, _) =>
    let newParentPath := parentPathOf newPath
    let newName := leafOf newPath
    match resolvePath c1 r newParentPath with
    | (.error e, c2, _) => (.error e.message, c2, r)
    | (.ok newParentNode, c2, _) =>
      match r.updateFile (c2.getRec node).id (some newName) none
          (some (c2.getRec newParentNode).id)
          ((c2.getRec node).parent.map (fun p => (c2.getRec p).id)) with
      | .error m => (.error m, c2, r)
      | .ok (_, r') =>
        let c3 := c2.modifyRec node (fun n => { n with name := newName })
        let c4 :=
          match (c3.getRec node).parent with
          | some p => (c3.removeChild p (c3.getRec node).id).1
          | none => c3
        let c5 := c4.addChild newParentNode node
        (.ok node, c5, r')

/-- `GDrive.rename(oldPath, newPath)`. -/
def renameOp (c : Cache) (r : Remote) (oldPath newPath : String) :
    (Except String Nat) × Cache × Remote :=
  let out := renameBody c r oldPath newPath
  (wrapErr "Failed to rename/move: " out.1, out.2)

/-- The record returned by `GDrive.stat`. -/
structure NodeStat where
  isDirectory : Bool
  isFile : Bool
  size : Nat
  mtime : Option Int
  ctime : Option Int
deriving Repr, DecidableEq

def statBody (c : Cache) (r : Remote) (path : String) :
    (Except String NodeStat) × Cache × Remote :=
  match resolvePath c r path with
  | (.error e, c1, _) => (.error e.message, c1, r)
  | (.ok node, c1, _) =>
    let n := c1.getRec node
    (.ok ⟨n.isDirectory, n.isFile, c1.getSize c1.store.length node,
      n.modifiedTime, n.createdTime⟩, c1, r)

/-- `GDrive.stat(path)`: derived from the cached node, no remote call. -/
def statOp (c : Cache) (r : Remote) (path : String) :
    (Except String NodeStat) × Cache × Remote :=
  let out := statBody c r path
  (wrapErr "Failed to get file stats: " out.1, out.2)

/-- The options record of `GDrive.search`. -/
structure SearchOpts where
  name : Option String
  mimeType : Option String
  minSize : Option Nat
  maxSize : Option Nat
  modifiedAfter : Option Int
  modifiedBefore : Option Int
  orderBy : Option String
  limit : Option Nat
deriving Repr, DecidableEq

/-- Substring test over character lists, for the remote-side
`name contains '...'` query term. -/
def charsMatchAt : List Char → List Char → Bool
  | [], _ => true
  | _ :: _, [] => false
  | a :: as, b :: bs => a == b && charsMatchAt as bs

def strContains (s sub : String) : Bool :=
  (List.range (s.data.length + 1)).any (fun i => charsMatchAt sub.data (s.data.drop i))

/-- Whether a remote entry satisfies the conjunctive query `search` builds.
JS truthiness: a filter term is added only when the option is set and (for
the numeric ones) non-zero.  The server-side `orderBy` is not interpreted;
`limit` (default 100) is applied with `List.take`. -/
def matchName (o : Option String) (f : RFile) : Bool :=
  match o with
  | some nm => strContains f.name nm
  | none => true

def matchMime (o : Option String) (f : RFile) : Bool :=
  match o with
  | some mt => f.mimeType == mt
  | none => true

def matchMinSize (o : Option Nat) (f : RFile) : Bool :=
  match o with
  | some v => if v ≠ 0 then decide (v ≤ f.size) else true
  | none => true

def matchMaxSize (o : Option Nat) (f : RFile) : Bool :=
  match o with
  | some v => if v ≠ 0 then decide (f.size ≤ v) else true
  | none => true

def matchAfter (o : Option Int) (f : RFile) : Bool :=
  match o, f.modifiedTime with
  | some t, some m => decide (t < m)
  | some _, none => false
  | none, _ => true

def matchBefore (o : Option Int) (f : RFile) : Bool :=
  match o, f.modifiedTime with
  | some t, some m => decide (m < t)
  | some _, none => false
  | none, _ => true

def searchMatch (o : SearchOpts) (f : RFile) : Bool :=
  matchName o.name f && matchMime o.mimeType f &&
  matchMinSize o.minSize f && matchMaxSize o.maxSize f &&
  matchAfter o.modifiedAfter f && matchBefore o.modifiedBefore f

def searchBody (c : Cache) (r : Remote) (o : SearchOpts) (path : String) :
    (Except String (List Node)) × Cache × Remote :=
  match resolvePath c r path with
  | (.error e, c1, _) => (.error e.message, c1, r)
  | (.ok parentNode, c1, _) =>
    match r.listChildren (c1.getRec parentNode).id with
    | .error m => (.error m, c1, r)
    | .ok files =>
      let hits := (files.filter (searchMatch o)).take (o.limit.getD 100)
      (.ok (hits.map nodeOfRFile), c1, r)

/-- `GDrive.search(options, path)`: fresh nodes, never merged into the tree. -/
def searchOp (c : Cache) (r : Remote) (o : SearchOpts) (path : String) :
    (Except String (List Node)) × Cache × Remote :=
  let out := searchBody c r o path
  (wrapErr "Failed to search: " out.1, out.2)

def copyBody (c : Cache) (r : Remote) (sourcePath destPath : String) :
    (Except String Nat) × Cache × Remote :=
  match resolvePath c r sourcePath with
  | (.error e, c1, _) => (.error e.message, c1, r)
  | (.ok sourceNode, c1, _) =>
    let destParentPath := parentPathOf destPath
    match resolvePath c1 r destParentPath with
    | (.error e, c2, _) => (.error e.message, c2, r)
    | (.ok destParentNode, c2, _) =>
      let newName := leafOf destPath
      match r.copyFile (c2.getRec sourceNode).id (c2.getRec destParentNode).id newName with
      | .error m => (.error m, c2, r)
      | .ok (entry, r') =>
        let a := c2.alloc (nodeOfRFile entry)
        let c3 := a.1.addChild destParentNode a.2
        (.ok a.2, c3, r')

/-- `GDrive.copy(sourcePath, destinationPath)`. -/
def copyOp (c : Cache) (r : Remote) (sourcePath destPath : String) :
    (Except String Nat) × Cache × Remote :=
  let out := copyBody c r sourcePath destPath
  (wrapErr "Failed to copy file: " out.1, out.2)

/-! ## Operation sequences and reachable states

`FsOp` names one public call with its arguments; `execCache` runs it on a
cache/remote pair and keeps the resulting cache (success or failure — JS
mutations before a throw persist).  `ReachWith P` is reachability from a
freshly connected instance (a root-only cache) by operations satisfying the
per-step side condition `P`; `P := fun _ _ _ => True` gives plain
reachability.  The remote argument is chosen afresh at every step, which
subsumes external remote mutation and transient transport failures. -/

inductive FsOp where
  | readdir (p : String)
  | mkdir (p : String)
  | writeFile (p content : String)
  | readFile (p : String)
  | unlink (p : String)
  | rename (a b : String)
  | stat (p : String)
  | search (o : SearchOpts) (p : String)
  | copy (s d : String)

def execCache (op : FsOp) (c : Cache) (r : Remote) : Cache :=
  match op with
  | .readdir p => (readdirOp c r p).2.1
  | .mkdir p => (mkdirOp c r p).2.1
  | .writeFile p content => (writeFileOp c r p content).2.1
  | .readFile p => (readFileOp c r p).2.1
  | .unlink p => (unlinkOp c r p).2.1
  | .rename a b => (renameOp c r a b).2.1
  | .stat p => (statOp c r p).2.1
  | .search o p => (searchOp c r o p).2.1
  | .copy s d => (copyOp c r s d).2.1

/-- A freshly connected instance: the root node alone, unpopulated, with no
parent (as built by `connect` from the configured root id). -/
def initialCache (n : Node) : Cache := ⟨[n], 0⟩

inductive ReachWith (P : Cache → Remote → FsOp → Prop) : Cache → Prop where
  | init (n : Node) (hc : n.children = none) (hp : n.parent = none) :
      ReachWith P (initialCache n)
  | step (c : Cache) (r : Remote) (op : FsOp) (h : ReachWith P c)
      (hop : P c r op) : ReachWith P (execCache op c r)

/-! ## Invariants of the mirror tree -/

/-- A file node never carries a `children` set. -/
def filesHaveNoChildren (c : Cache) : Prop :=
  ∀ n ∈ c.store, n.isDirectory = false → n.children = none

instance (c : Cache) : Decidable (filesHaveNoChildren c) := by
  unfold filesHaveNoChildren; infer_instance

/-- The parent link of a reference (`none` for invalid references). -/
def parentOf (c : Cache) (r : Nat) : Option Nat :=
  match c.store.get? r with
  | none => none
  | some n => n.parent

/-- Iterate parent links `k` times from an optional reference. -/
def iterParent (c : Cache) : Nat → Option Nat → Option Nat
  | 0, o => o
  | k + 1, o =>
    match o with
    | none => none
    | some x => iterParent c k (parentOf c x)

/-- Acyclicity of the parent links: from every node, following `parent`
reaches a parentless node after finitely many steps (no cycle). -/
def Terminating (c : Cache) : Prop :=
  ∀ r : Nat, ∃ k, iterParent c k (some r) = none

/-- Parent references point at allocated nodes. -/
def ParentsValid (c : Cache) : Prop :=
  ∀ n ∈ c.store, ∀ p, n.parent = some p → p < c.store.length

/-- Child references point at allocated nodes. -/
def ChildrenValid (c : Cache) : Prop :=
  ∀ n ∈ c.store, ∀ l, n.children = some l → ∀ x ∈ l, x < c.store.length

/-- Structural well-formedness of the mirror heap: the root is allocated and
all stored references are in range.  This holds in every state the source
can build, because JS object references always denote live objects. -/
def WF (c : Cache) : Prop :=
  c.root < c.store.length ∧ ParentsValid c ∧ ChildrenValid c

instance (c : Cache) : Decidable (ParentsValid c) := by
  unfold ParentsValid; infer_instance

instance (c : Cache) : Decidable (ChildrenValid c) := by
  unfold ChildrenValid; infer_instance

instance (c : Cache) : Decidable (WF c) := by
  unfold WF; infer_instance

/-! ## Cache extension

`CacheExt c c'` says `c'` is the same mirror tree as `c` except that fresh nodes
may have been allocated and children lists extended at their end — exactly
the effect path resolution has on a cache.  Shallow identity fields of the
nodes of `c` are untouched. -/

def CacheExt (c c' : Cache) : Prop :=
  c'.root = c.root ∧ c.store.length ≤ c'.store.length ∧
  (∀ x, x < c.store.length →
    (c'.getRec x).id = (c.getRec x).id ∧
    (c'.getRec x).name = (c.getRec x).name ∧
    (c'.getRec x).mimeType = (c.getRec x).mimeType) ∧
  (∀ x, x < c.store.length → ∀ l, (c.getRec x).children = some l →
    ∃ t, (c'.getRec x).children = some (l ++ t))

/-- The side condition on a `rename` step under which the mirror tree stays
acyclic: when both resolutions succeed, the parent chain of the resolved
destination parent must not pass through the resolved source node (taking
`m = 0` forbids the two being the same node). -/
def RenameSafeCond (c : Cache) (r : Remote) (a b : String) : Prop :=
  match resolvePath c r a with
  | (.ok node, c1, _) =>
    match resolvePath c1 r (parentPathOf b) with
    | (.ok q, c2, _) => ∀ m, iterParent c2 m (some q) ≠ some node
    | _ => True
  | _ => True

/-- The per-step side condition restricting only `rename`. -/
def SafeOp (c : Cache) (r : Remote) (op : FsOp) : Prop :=
  match op with
  | .rename a b => RenameSafeCond c r a b
  | _ => True

/-- The parent chain from `x` reaches the root (which is parentless) within
`fuel` steps. -/
def ChainUp (c : Cache) : Nat → Nat → Prop
  | 0, _ => False
  | fuel + 1, x =>
    match (c.getRec x).parent with
    | none => x = c.root
    | some p => ChainUp c fuel p

instance (c : Cache) (fuel x : Nat) : Decidable (ChainUp c fuel x) := by
  induction fuel generalizing x with
  | zero => exact isFalse (fun h => h)
  | succ fuel ih =>
    unfold ChainUp
    cases (c.getRec x).parent with
    | none => exact inferInstance
    | some p => exact ih p

/-- Decidable equality on `Except`, so that concrete operation results can
be checked by `decide`. -/
instance {ε α : Type} [DecidableEq ε] [DecidableEq α] : DecidableEq (Except ε α) :=
  fun x y =>
  match x, y with
  | .ok a, .ok b =>
    if h : a = b then isTrue (by rw [h]) else isFalse (by intro he; cases he; exact h rfl)
  | .error a, .error b =>
    if h : a = b then isTrue (by rw [h]) else isFalse (by intro he; cases he; exact h rfl)
  | .ok _, .error _ => isFalse (by intro he; cases he)
  | .error _, .ok _ => isFalse (by intro he; cases he)

/-! ## Concrete fixtures used by witnesses and counterexamples -/

def wRootEntry : RFile := ⟨"root", "MyDrive", folderMimeType, 0, none, none, "", []⟩

def wRoot : Node := ⟨"root", "MyDrive", folderMimeType, 0, none, none, none, none⟩

def wCache : Cache := initialCache wRoot

/-- A remote store with a folder `d` under the root. -/
def wRemoteD : Remote := ⟨[wRootEntry, ⟨"did", "d", folderMimeType, 0, none, none,
  "", ["root"]⟩], none, 0⟩

/-- A remote store with a folder `a` under the root (and nothing inside it). -/
def wRemoteA : Remote := ⟨[wRootEntry, ⟨"aid", "a", folderMimeType, 0, none, none,
  "", ["root"]⟩], none, 0⟩

/-- A remote store with a file `f.txt` under the root. -/
def wRemoteF : Remote := ⟨[wRootEntry, ⟨"fid", "f.txt", "text/plain", 3, none, none,
  "abc", ["root"]⟩], none, 0⟩

/-- A remote store with folder `a` holding files `x` (10 bytes) and
`y` (20 bytes). -/
def wRemoteXY : Remote := ⟨[wRootEntry,
  ⟨"aid", "a", folderMimeType, 0, none, none, "", ["root"]⟩,
  ⟨"xid", "x", "text/plain", 10, none, none, "", ["aid"]⟩,
  ⟨"yid", "y", "text/plain", 20, none, none, "", ["aid"]⟩], none, 0⟩

/-- A failing remote store: every call raises `boom`. -/
def wRemoteFail : Remote := ⟨[wRootEntry], some "boom", 0⟩

/-- The cache produced by resolving `/d` once against `wRemoteD`. -/
def wCacheD : Cache := (resolvePath wCache wRemoteD "/d").2.1

/-- The cache produced by resolving `/a` once against `wRemoteA`. -/
def wCacheA : Cache := (resolvePath wCache wRemoteA "/a").2.1

/-- The cache produced by the failed resolution of `/a/b` against
`wRemoteA` (the segment `a` is attached, `b` is missing). -/
def wCacheAB : Cache := (resolvePath wCache wRemoteA "/a/b").2.1

/-- The cache produced by resolving the path prefix `f.txt` against
`wRemoteF`. -/
def wCacheF : Cache :=
  (resolveSegs wRemoteF "/f.txt/child" ["f.txt"] 0 wCache).2.1

/-- The cache produced by resolving `/a` against `wRemoteXY` (folder `a`
cached, children unpopulated). -/
def wCacheXY : Cache := (resolvePath wCache wRemoteXY "/a").2.1

/-- The cache produced by `readdir('/a')` against `wRemoteXY` (folder `a`
populated with `x` and `y`). -/
def wCacheXYL : Cache := (readdirOp wCache wRemoteXY "/a").2.1

/-- Rename scenario: a remote file entry named `a` under the root, with a
symbolic id, size and content type. -/
def c2Entry (aId : String) (sz : Nat) (ct : String) : RFile :=
  ⟨aId, "a", "text/plain", sz, none, none, ct, ["root"]⟩

/-- Rename scenario remote store: the root entry plus the file `a`. -/
def c2Remote (aId : String) (sz : Nat) (ct : String) : Remote :=
  ⟨[wRootEntry, c2Entry aId sz ct], none, 0⟩

/-- The cache after resolving `/a` once against `c2Remote`: the file is
materialized at reference 1 and attached under the root. -/
def c2Cache1 (aId : String) (sz : Nat) : Cache :=
  ⟨[⟨"root", "MyDrive", folderMimeType, 0, none, none, some [1], none⟩,
    ⟨aId, "a", "text/plain", sz, none, none, none, some 0⟩], 0⟩

/-- The cache after `rename('/a','/b')`: the same node object (reference 1)
renamed to `b` and re-attached under the root. -/
def c2CacheFinal (aId : String) (sz : Nat) : Cache :=
  ⟨[⟨"root", "MyDrive", folderMimeType, 0, none, none, some [1], none⟩,
    ⟨aId, "b", "text/plain", sz, none, none, none, some 0⟩], 0⟩

/-- The remote store after `rename('/a','/b')`: the entry keeps its id and
content, only its name is updated. -/
def c2RemoteFinal (aId : String) (sz : Nat) (ct : String) : Remote :=
  ⟨[wRootEntry, ⟨aId, "b", "text/plain", sz, none, none, ct, ["root"]⟩], none, 0⟩

/-! ## Basic heap lemmas -/

theorem Cache.getRec_invalid (c : Cache) (r : Nat) (h : c.store.length ≤ r) :
    c.getRec r = dummyNode := by
  unfold Cache.getRec
  rw [List.get?_len_le h]
  rfl

theorem Cache.getRec_mem (c : Cache) {r : Nat} (h : r < c.store.length) :
    c.getRec r ∈ c.store := by
  unfold Cache.getRec
  cases h' : c.store.get? r with
  | none => exact absurd (List.get?_eq_none.mp h') (Nat.not_le_of_lt h)
  | some v =>
    have hm := List.get?_mem h'
    simpa using hm

@[simp] theorem Cache.length_setRec (c : Cache) (r : Nat) (n : Node) :
    (c.setRec r n).store.length = c.store.length := by
  unfold Cache.setRec
  exact List.length_set c.store r n

@[simp] theorem Cache.root_setRec (c : Cache) (r : Nat) (n : Node) :
    (c.setRec r n).root = c.root := rfl

@[simp] theorem Cache.length_modifyRec (c : Cache) (r : Nat) (f : Node → Node) :
    (c.modifyRec r f).store.length = c.store.length :=
  Cache.length_setRec c r _

@[simp] theorem Cache.root_modifyRec (c : Cache) (r : Nat) (f : Node → Node) :
    (c.modifyRec r f).root = c.root := rfl

@[simp] theorem Cache.length_alloc (c : Cache) (n : Node) :
    (c.alloc n).1.store.length = c.store.length + 1 := by
  unfold Cache.alloc
  simp

@[simp] theorem Cache.root_alloc (c : Cache) (n : Node) :
    (c.alloc n).1.root = c.root := rfl

theorem Cache.getRec_setRec_self (c : Cache) {r : Nat} (n : Node)
    (h : r < c.store.length) : (c.setRec r n).getRec r = n := by
  unfold Cache.setRec Cache.getRec
  rw [List.get?_set_eq]
  cases h' : c.store.get? r with
  | none => exact absurd (List.get?_eq_none.mp h') (Nat.not_le_of_lt h)
  | some v => rfl

theorem Cache.getRec_setRec_ne (c : Cache) {r r' : Nat} (n : Node)
    (h : r' ≠ r) : (c.setRec r n).getRec r' = c.getRec r' := by
  unfold Cache.setRec Cache.getRec
  rw [List.get?_set_ne _ _ (fun he => h he.symm)]

theorem Cache.getRec_modifyRec_self (c : Cache) {r : Nat} (f : Node → Node)
    (h : r < c.store.length) : (c.modifyRec r f).getRec r = f (c.getRec r) :=
  Cache.getRec_setRec_self c _ h

theorem Cache.getRec_modifyRec_ne (c : Cache) {r r' : Nat} (f : Node → Node)
    (h : r' ≠ r) : (c.modifyRec r f).getRec r' = c.getRec r' :=
  Cache.getRec_setRec_ne c _ h

theorem Cache.modifyRec_invalid (c : Cache) {r : Nat} (f : Node → Node)
    (h : c.store.length ≤ r) : c.modifyRec r f = c := by
  unfold Cache.modifyRec Cache.setRec
  cases c with
  | mk s root =>
    simp only [Cache.mk.injEq, and_true]
    exact List.set_eq_of_length_le (by simpa using h)

theorem Cache.getRec_alloc_old (c : Cache) (n : Node) {r : Nat}
    (h : r < c.store.length) : (c.alloc n).1.getRec r = c.getRec r := by
  unfold Cache.alloc Cache.getRec
  rw [List.get?_append h]

theorem Cache.getRec_alloc_new (c : Cache) (n : Node) :
    (c.alloc n).1.getRec c.store.length = n := by
  unfold Cache.alloc Cache.getRec
  rw [List.get?_concat_length]
  rfl

/-! ## Parent-chain lemmas -/

theorem parentOf_eq_getRec (c : Cache) (r : Nat) :
    parentOf c r = (c.getRec r).parent := by
  unfold parentOf Cache.getRec
  cases c.store.get? r <;> rfl

@[simp] theorem iterParent_none (c : Cache) (k : Nat) :
    iterParent c k none = none := by
  cases k <;> rfl

theorem iterParent_succ (c : Cache) (k x : Nat) :
    iterParent c (k + 1) (some x) = iterParent c k (parentOf c x) := rfl

theorem iterParent_add (c : Cache) (a b : Nat) (o : Option Nat) :
    iterParent c (a + b) o = iterParent c b (iterParent c a o) := by
  induction a generalizing o with
  | zero => rw [Nat.zero_add]; rfl
  | succ a ih =>
    cases o with
    | none => simp
    | some x =>
      rw [Nat.succ_add, iterParent_succ, iterParent_succ, ih]

theorem iterParent_congr {c c' : Cache}
    (h : ∀ x, parentOf c' x = parentOf c x) (k : Nat) (o : Option Nat) :
    iterParent c' k o = iterParent c k o := by
  induction k generalizing o with
  | zero => rfl
  | succ k ih =>
    cases o with
    | none => simp
    | some x => rw [iterParent_succ, iterParent_succ, h, ih]

theorem terminating_congr {c c' : Cache}
    (h : ∀ x, parentOf c' x = parentOf c x) (hT : Terminating c) :
    Terminating c' := by
  intro r
  obtain ⟨k, hk⟩ := hT r
  exact ⟨k, by rw [iterParent_congr h]; exact hk⟩

/-- If a chain never passes through `node`, rewriting `node`'s parent link
does not change the chain. -/
theorem iterParent_avoid {c c' : Cache} {node : Nat}
    (hp : ∀ x, x ≠ node → parentOf c' x = parentOf c x) :
    ∀ (k : Nat) (o : Option Nat),
      (∀ j, iterParent c j o ≠ some node) → iterParent c' k o = iterParent c k o := by
  intro k
  induction k with
  | zero => intro o _; rfl
  | succ k ih =>
    intro o havoid
    cases o with
    | none => simp
    | some x =>
      have hx : x ≠ node := by
        intro he
        exact havoid 0 (by simp [he, iterParent])
      rw [iterParent_succ, iterParent_succ, hp x hx]
      exact ih (parentOf c x) (fun j => havoid (j + 1))

/-- Re-pointing the parent link of `node` at `q` preserves termination of
all parent chains, provided `q`'s chain never passes through `node`. -/
theorem terminating_reparent {c c' : Cache} {node q : Nat}
    (hp : ∀ x, x ≠ node → parentOf c' x = parentOf c x)
    (hn : parentOf c' node = some q)
    (hT : Terminating c)
    (hq : ∀ m, iterParent c m (some q) ≠ some node) :
    Terminating c' := by
  intro r
  obtain ⟨k, hk⟩ := hT r
  induction k using Nat.strong_induction_on generalizing r with
  | _ k ih =>
    by_cases hr : r = node
    · subst hr
      obtain ⟨kq, hkq⟩ := hT q
      have hq' : iterParent c' kq (some q) = none := by
        rw [iterParent_avoid hp kq (some q) hq]; exact hkq
      refine ⟨1 + kq, ?_⟩
      rw [iterParent_add, show iterParent c' 1 (some r) = some q from hn, hq']
    · cases k with
      | zero => exact absurd hk (by simp [iterParent])
      | succ k =>
        rw [iterParent_succ] at hk
        cases hpo : parentOf c r with
        | none => exact ⟨1, by rw [iterParent_succ, hp r hr, hpo]; simp⟩
        | some y =>
          rw [hpo] at hk
          obtain ⟨k', hk'⟩ := ih k (Nat.lt_succ_self k) y hk
          refine ⟨k' + 1, ?_⟩
          rw [Nat.add_comm, iterParent_add, iterParent_succ]
          show iterParent c' k' (parentOf c' r) = none
          rw [hp r hr, hpo]
          exact hk'

/-- Chains starting below `L` stay below `L` when all parents below `L`
point below `L`. -/
theorem iterParent_chain_lt {c : Cache} {L : Nat}
    (hpar : ∀ y, y < L → ∀ p, parentOf c y = some p → p < L) :
    ∀ (m : Nat) (x : Nat), x < L → ∀ y, iterParent c m (some x) = some y → y < L := by
  intro m
  induction m with
  | zero =>
    intro x hx y hy
    cases hy; exact hx
  | succ m ih =>
    intro x hx y hy
    rw [iterParent_succ] at hy
    cases hpo : parentOf c x with
    | none => rw [hpo] at hy; simp at hy
    | some p =>
      rw [hpo] at hy
      exact ih p (hpar x hx p hpo) y hy

/-! ## Frame lemmas for the heap primitives -/

theorem parentOf_modify_keep {c : Cache} {r : Nat} {f : Node → Node}
    (hf : ∀ n, (f n).parent = n.parent) (x : Nat) :
    parentOf (c.modifyRec r f) x = parentOf c x := by
  by_cases hv : r < c.store.length
  · by_cases hx : x = r
    · subst hx
      rw [parentOf_eq_getRec, parentOf_eq_getRec, Cache.getRec_modifyRec_self c f hv, hf]
    · rw [parentOf_eq_getRec, parentOf_eq_getRec, Cache.getRec_modifyRec_ne c f hx]
  · rw [Cache.modifyRec_invalid c f (Nat.le_of_not_lt hv)]

theorem parentOf_alloc {c : Cache} {n : Node} (hn : n.parent = none) (x : Nat) :
    parentOf ((c.alloc n).1) x = parentOf c x := by
  rcases Nat.lt_trichotomy x c.store.length with h | h | h
  · rw [parentOf_eq_getRec, parentOf_eq_getRec, Cache.getRec_alloc_old c n h]
  · subst h
    rw [parentOf_eq_getRec, parentOf_eq_getRec, Cache.getRec_alloc_new,
      Cache.getRec_invalid c _ (Nat.le_refl _), hn]
    rfl
  · rw [parentOf_eq_getRec, parentOf_eq_getRec,
      Cache.getRec_invalid (c.alloc n).1 x (by simpa using h),
      Cache.getRec_invalid c x (Nat.le_of_lt h)]

theorem Cache.addChild_not_dir {c : Cache} {self child : Nat}
    (h : (c.getRec self).isDirectory = false) : c.addChild self child = c := by
  unfold Cache.addChild
  rw [h]
  simp

theorem parentOf_addChild_ne {c : Cache} {self child x : Nat} (hx : x ≠ child) :
    parentOf (c.addChild self child) x = parentOf c x := by
  unfold Cache.addChild
  by_cases hdir : (c.getRec self).isDirectory
  · rw [if_pos hdir]
    have h1 : parentOf ((c.modifyRec self
        (fun n => { n with children := some (n.children.getD [] ++ [child]) })).modifyRec
        child (fun n => { n with parent := some self })) x
        = parentOf (c.modifyRec self
        (fun n => { n with children := some (n.children.getD [] ++ [child]) })) x := by
      by_cases hv : child < (c.modifyRec self
          (fun n => { n with children := some (n.children.getD [] ++ [child]) })).store.length
      · rw [parentOf_eq_getRec, parentOf_eq_getRec, Cache.getRec_modifyRec_ne _ _ hx]
      · rw [Cache.modifyRec_invalid _ _ (Nat.le_of_not_lt hv)]
    rw [h1]
    apply parentOf_modify_keep
    intro n
    rfl
  · rw [if_neg hdir]

theorem parentOf_addChild_child {c : Cache} {self child : Nat}
    (hdir : (c.getRec self).isDirectory = true) (hchild : child < c.store.length) :
    parentOf (c.addChild self child) child = some self := by
  unfold Cache.addChild
  rw [if_pos hdir, parentOf_eq_getRec,
    Cache.getRec_modifyRec_self _ _ (by simpa using hchild)]

theorem parentOf_addChild_invalid {c : Cache} {self child : Nat}
    (hchild : c.store.length ≤ child) (x : Nat) :
    parentOf (c.addChild self child) x = parentOf c x := by
  unfold Cache.addChild
  by_cases hdir : (c.getRec self).isDirectory
  · rw [if_pos hdir, Cache.modifyRec_invalid _ _ (by simpa using hchild)]
    apply parentOf_modify_keep
    intro n
    rfl
  · rw [if_neg hdir]

/-- `addChild` keeps all parent chains terminating as long as the chain of
the new parent does not pass through the attached child. -/
theorem terminating_addChild {c : Cache} {self child : Nat} (hT : Terminating c)
    (hq : ∀ m, iterParent c m (some self) ≠ some child) :
    Terminating (c.addChild self child) := by
  by_cases hdir : (c.getRec self).isDirectory
  · by_cases hchild : child < c.store.length
    · exact @terminating_reparent c (c.addChild self child) child self
        (fun x hx => parentOf_addChild_ne hx)
        (parentOf_addChild_child hdir hchild) hT hq
    · exact terminating_congr (parentOf_addChild_invalid (Nat.le_of_not_lt hchild)) hT
  · rw [Cache.addChild_not_dir (by simpa using hdir)]
    exact hT

/-- Attaching a freshly allocated node (parentless at allocation) to a valid
parent preserves termination of the parent chains. -/
theorem terminating_attach_fresh {c : Cache} {n : Node} {self : Nat}
    (hT : Terminating c) (hPV : ParentsValid c) (hn : n.parent = none)
    (hself : self < c.store.length) :
    Terminating (((c.alloc n).1).addChild self (c.alloc n).2) := by
  have hT1 : Terminating (c.alloc n).1 := terminating_congr (parentOf_alloc hn) hT
  apply terminating_addChild hT1
  intro m hcontra
  have hbound := iterParent_chain_lt (c := (c.alloc n).1) (L := c.store.length)
    (fun y hy p hp => by
      rw [parentOf_alloc hn, parentOf_eq_getRec] at hp
      exact hPV _ (Cache.getRec_mem c hy) p hp)
    m self hself _ hcontra
  exact Nat.lt_irrefl _ hbound

@[simp] theorem Cache.length_addChild (c : Cache) (self child : Nat) :
    (c.addChild self child).store.length = c.store.length := by
  unfold Cache.addChild
  by_cases hdir : (c.getRec self).isDirectory
  · rw [if_pos hdir]; simp
  · rw [if_neg hdir]

@[simp] theorem Cache.root_addChild (c : Cache) (self child : Nat) :
    (c.addChild self child).root = c.root := by
  unfold Cache.addChild
  by_cases hdir : (c.getRec self).isDirectory
  · rw [if_pos hdir]; rfl
  · rw [if_neg hdir]

@[simp] theorem Cache.length_removeChild (c : Cache) (self : Nat) (cid : String) :
    (c.removeChild self cid).1.store.length = c.store.length := by
  unfold Cache.removeChild
  split
  · rfl
  · split
    · rfl
    · simp

@[simp] theorem Cache.root_removeChild (c : Cache) (self : Nat) (cid : String) :
    (c.removeChild self cid).1.root = c.root := by
  unfold Cache.removeChild
  split
  · rfl
  · split
    · rfl
    · rfl

theorem parentOf_removeChild (c : Cache) (self : Nat) (cid : String) (x : Nat) :
    parentOf (c.removeChild self cid).1 x = parentOf c x := by
  unfold Cache.removeChild
  split
  · rfl
  · split
    · rfl
    · apply parentOf_modify_keep
      intro n
      rfl

/-! ## Well-formedness preservation -/

theorem WF_modify {c : Cache} {r : Nat} {f : Node → Node} (hWF : WF c)
    (hpar : ∀ p, (f (c.getRec r)).parent = some p →
      (c.getRec r).parent = some p ∨ p < c.store.length)
    (hch : ∀ l x, (f (c.getRec r)).children = some l → x ∈ l →
      (∃ l₀, (c.getRec r).children = some l₀ ∧ x ∈ l₀) ∨ x < c.store.length) :
    WF (c.modifyRec r f) := by
  by_cases hv : r < c.store.length
  · obtain ⟨hroot, hPV, hCV⟩ := hWF
    refine ⟨by simpa using hroot, ?_, ?_⟩
    · intro n hn p hp
      rw [Cache.length_modifyRec]
      have hn' : n ∈ c.store ∨ n = f (c.getRec r) := by
        unfold Cache.modifyRec Cache.setRec at hn
        exact List.mem_or_eq_of_mem_set hn
      rcases hn' with hmem | rfl
      · exact hPV n hmem p hp
      · rcases hpar p hp with hold | hlt
        · exact hPV _ (Cache.getRec_mem c hv) p hold
        · exact hlt
    · intro n hn l hl x hx
      rw [Cache.length_modifyRec]
      have hn' : n ∈ c.store ∨ n = f (c.getRec r) := by
        unfold Cache.modifyRec Cache.setRec at hn
        exact List.mem_or_eq_of_mem_set hn
      rcases hn' with hmem | rfl
      · exact hCV n hmem l hl x hx
      · rcases hch l x hl hx with ⟨l₀, hl₀, hxl₀⟩ | hlt
        · exact hCV _ (Cache.getRec_mem c hv) l₀ hl₀ x hxl₀
        · exact hlt
  · rw [Cache.modifyRec_invalid c f (Nat.le_of_not_lt hv)]
    exact hWF

theorem WF_alloc {c : Cache} {n : Node} (hWF : WF c)
    (hp : n.parent = none) (hc : n.children = none) : WF (c.alloc n).1 := by
  obtain ⟨hroot, hPV, hCV⟩ := hWF
  refine ⟨by simp [Nat.lt_succ_of_lt hroot], ?_, ?_⟩
  · intro m hm p hpp
    rw [Cache.length_alloc]
    unfold Cache.alloc at hm
    simp only [List.mem_append, List.mem_singleton] at hm
    rcases hm with hmem | rfl
    · exact Nat.lt_succ_of_lt (hPV m hmem p hpp)
    · rw [hp] at hpp; cases hpp
  · intro m hm l hl x hx
    rw [Cache.length_alloc]
    unfold Cache.alloc at hm
    simp only [List.mem_append, List.mem_singleton] at hm
    rcases hm with hmem | rfl
    · exact Nat.lt_succ_of_lt (hCV m hmem l hl x hx)
    · rw [hc] at hl; cases hl

theorem WF_addChild {c : Cache} {self child : Nat} (hWF : WF c)
    (hself : self < c.store.length) (hchild : child < c.store.length) :
    WF (c.addChild self child) := by
  unfold Cache.addChild
  by_cases hdir : (c.getRec self).isDirectory
  · rw [if_pos hdir]
    apply WF_modify
    · apply WF_modify hWF
      · intro p hp
        exact Or.inl hp
      · intro l x hl hx
        simp only [Option.some.injEq] at hl
        subst hl
        rcases List.mem_append.mp hx with hxl | hxc
        · cases hcm : (c.getRec self).children with
          | none => rw [hcm] at hxl; simp at hxl
          | some l₀ => rw [hcm] at hxl; exact Or.inl ⟨l₀, rfl, by simpa using hxl⟩
        · simp only [List.mem_singleton] at hxc
          subst hxc
          exact Or.inr hchild
    · intro p hp
      simp only [Option.some.injEq] at hp
      subst hp
      exact Or.inr (by simpa using hself)
    · intro l x hl hx
      exact Or.inl ⟨l, hl, hx⟩
  · rw [if_neg hdir]
    exact hWF

theorem WF_removeChild {c : Cache} (hWF : WF c) (self : Nat) (cid : String) :
    WF (c.removeChild self cid).1 := by
  unfold Cache.removeChild
  split
  · exact hWF
  · split
    · exact hWF
    · rename_i a l hl b i hi
      apply WF_modify hWF
      · intro p hp
        exact Or.inl hp
      · intro ls x hls hx
        simp only [Option.some.injEq] at hls
        subst hls
        exact Or.inl ⟨l, hl, List.mem_of_mem_eraseIdx hx⟩

/-! ## Step equations for the resolver -/

theorem resolveSegs_nil (r : Remote) (full : String) (cur : Nat) (c : Cache) :
    resolveSegs r full [] cur c = (.ok cur, c, 0) := rfl

theorem resolveSegs_cons_notdir {c : Cache} {cur : Nat} (r : Remote)
    (full part : String) (rest : List String)
    (h : (c.getRec cur).isDirectory = false) :
    resolveSegs r full (part :: rest) cur c =
      (.error (.notADirectory (c.getRec cur).name), c, 0) := by
  simp [resolveSegs, h]

theorem resolveSegs_cons_hit {c : Cache} {cur ch : Nat} (r : Remote)
    (full part : String) (rest : List String)
    (h : (c.getRec cur).isDirectory = true)
    (hf : findChildByName c cur part = some ch) :
    resolveSegs r full (part :: rest) cur c = resolveSegs r full rest ch c := by
  simp [resolveSegs, h, hf]

theorem resolveSegs_cons_miss_err {c : Cache} {cur : Nat} {m : String} (r : Remote)
    (full part : String) (rest : List String)
    (h : (c.getRec cur).isDirectory = true)
    (hf : findChildByName c cur part = none)
    (hr : r.listByName (c.getRec cur).id part = .error m) :
    resolveSegs r full (part :: rest) cur c = (.error (.remote m), c, 1) := by
  simp [resolveSegs, h, hf, hr]

theorem resolveSegs_cons_miss_empty {c : Cache} {cur : Nat} (r : Remote)
    (full part : String) (rest : List String)
    (h : (c.getRec cur).isDirectory = true)
    (hf : findChildByName c cur part = none)
    (hr : r.listByName (c.getRec cur).id part = .ok []) :
    resolveSegs r full (part :: rest) cur c = (.error (.pathNotFound full), c, 1) := by
  simp [resolveSegs, h, hf, hr]

theorem resolveSegs_cons_miss_found {c : Cache} {cur : Nat} {f : RFile}
    {fs : List RFile} (r : Remote) (full part : String) (rest : List String)
    (h : (c.getRec cur).isDirectory = true)
    (hf : findChildByName c cur part = none)
    (hr : r.listByName (c.getRec cur).id part = .ok (f :: fs)) :
    resolveSegs r full (part :: rest) cur c =
      ((resolveSegs r full rest (c.alloc (nodeOfRFile f)).2
          ((c.alloc (nodeOfRFile f)).1.addChild cur (c.alloc (nodeOfRFile f)).2)).1,
        (resolveSegs r full rest (c.alloc (nodeOfRFile f)).2
          ((c.alloc (nodeOfRFile f)).1.addChild cur (c.alloc (nodeOfRFile f)).2)).2.1,
        (resolveSegs r full rest (c.alloc (nodeOfRFile f)).2
          ((c.alloc (nodeOfRFile f)).1.addChild cur (c.alloc (nodeOfRFile f)).2)).2.2 + 1) := by
  simp [resolveSegs, h, hf, hr]

/-! ## Files never acquire children (primitive preservation) -/

theorem fnc_modify {c : Cache} {r : Nat} {f : Node → Node}
    (h : filesHaveNoChildren c)
    (hf : c.getRec r ∈ c.store → (f (c.getRec r)).isDirectory = false →
      (f (c.getRec r)).children = none) :
    filesHaveNoChildren (c.modifyRec r f) := by
  by_cases hv : r < c.store.length
  · intro n hn hnd
    have hn' : n ∈ c.store ∨ n = f (c.getRec r) := by
      unfold Cache.modifyRec Cache.setRec at hn
      exact List.mem_or_eq_of_mem_set hn
    rcases hn' with hmem | rfl
    · exact h n hmem hnd
    · exact hf (Cache.getRec_mem c hv) hnd
  · rw [Cache.modifyRec_invalid c f (Nat.le_of_not_lt hv)]
    exact h

theorem fnc_alloc {c : Cache} {n : Node} (h : filesHaveNoChildren c)
    (hc : n.children = none) : filesHaveNoChildren (c.alloc n).1 := by
  intro m hm hmd
  unfold Cache.alloc at hm
  simp only [List.mem_append, List.mem_singleton] at hm
  rcases hm with hmem | rfl
  · exact h m hmem hmd
  · exact hc

/-- `filesHaveNoChildren` is preserved by any node update that keeps the
`children` and `mimeType` fields. -/
theorem fnc_modify_keepChildren {c : Cache} {r : Nat} {f : Node → Node}
    (h : filesHaveNoChildren c)
    (hf : ∀ n, (f n).children = n.children ∧ (f n).mimeType = n.mimeType) :
    filesHaveNoChildren (c.modifyRec r f) := by
  apply fnc_modify h
  intro hmem hfd
  have e := hf (c.getRec r)
  rw [e.1]
  apply h _ hmem
  unfold Node.isDirectory at hfd ⊢
  rw [← e.2]
  exact hfd

theorem fnc_addChild {c : Cache} (h : filesHaveNoChildren c) (self child : Nat) :
    filesHaveNoChildren (c.addChild self child) := by
  by_cases hdir : (c.getRec self).isDirectory = true
  · have h1 : filesHaveNoChildren (c.modifyRec self
        (fun n => { n with children := some (n.children.getD [] ++ [child]) })) := by
      apply fnc_modify h
      intro _ hfd
      have hfd' : (c.getRec self).isDirectory = false := hfd
      rw [hdir] at hfd'
      cases hfd'
    have h2 := fnc_modify_keepChildren (r := child)
      (f := fun n => { n with parent := some self }) h1 (fun n => ⟨rfl, rfl⟩)
    unfold Cache.addChild
    rw [if_pos hdir]
    exact h2
  · rw [Cache.addChild_not_dir (by simpa using hdir)]
    exact h

theorem fnc_removeChild {c : Cache} (h : filesHaveNoChildren c)
    (self : Nat) (cid : String) : filesHaveNoChildren (c.removeChild self cid).1 := by
  unfold Cache.removeChild
  split
  · exact h
  · split
    · exact h
    · rename_i a l hl b i hi
      apply fnc_modify h
      intro hmem hfd
      have := h _ hmem hfd
      rw [this] at hl
      cases hl

theorem fnc_resolveSegs (r : Remote) (full : String) :
    ∀ (segs : List String) (cur : Nat) (c : Cache), filesHaveNoChildren c →
      filesHaveNoChildren (resolveSegs r full segs cur c).2.1 := by
  intro segs
  induction segs with
  | nil => intro cur c h; exact h
  | cons part rest ih =>
    intro cur c h
    cases hdir : (c.getRec cur).isDirectory with
    | false => rw [resolveSegs_cons_notdir r full part rest hdir]; exact h
    | true =>
      cases hfind : findChildByName c cur part with
      | some ch =>
        rw [resolveSegs_cons_hit r full part rest hdir hfind]
        exact ih ch c h
      | none =>
        cases hr : r.listByName (c.getRec cur).id part with
        | error m => rw [resolveSegs_cons_miss_err r full part rest hdir hfind hr]; exact h
        | ok files =>
          cases files with
          | nil => rw [resolveSegs_cons_miss_empty r full part rest hdir hfind hr]; exact h
          | cons f fs =>
            rw [resolveSegs_cons_miss_found r full part rest hdir hfind hr]
            exact ih _ _ (fnc_addChild (fnc_alloc h rfl) _ _)

/-! ## Shallow-field preservation -/

/-- The identity-like fields of a node (everything except `children` and
`parent`). -/
def shallowEq (m n : Node) : Prop :=
  m.id = n.id ∧ m.name = n.name ∧ m.mimeType = n.mimeType ∧ m.size = n.size

theorem shallowEq_refl (n : Node) : shallowEq n n := ⟨rfl, rfl, rfl, rfl⟩

theorem shallowEq_trans {a b c : Node} (h1 : shallowEq a b) (h2 : shallowEq b c) :
    shallowEq a c :=
  ⟨h1.1.trans h2.1, h1.2.1.trans h2.2.1, h1.2.2.1.trans h2.2.2.1, h1.2.2.2.trans h2.2.2.2⟩

theorem shallow_modify {c : Cache} {r : Nat} {f : Node → Node}
    (hf : ∀ n, shallowEq (f n) n) (x : Nat) :
    shallowEq ((c.modifyRec r f).getRec x) (c.getRec x) := by
  by_cases hv : r < c.store.length
  · by_cases hx : x = r
    · subst hx
      rw [Cache.getRec_modifyRec_self c f hv]
      exact hf _
    · rw [Cache.getRec_modifyRec_ne c f hx]
      exact shallowEq_refl _
  · rw [Cache.modifyRec_invalid c f (Nat.le_of_not_lt hv)]
    exact shallowEq_refl _

theorem shallow_addChild (c : Cache) (self child x : Nat) :
    shallowEq ((c.addChild self child).getRec x) (c.getRec x) := by
  unfold Cache.addChild
  by_cases hdir : (c.getRec self).isDirectory
  · rw [if_pos hdir]
    have h1 := shallow_modify (c := c) (r := self)
      (f := fun n => { n with children := some (n.children.getD [] ++ [child]) })
      (fun n => ⟨rfl, rfl, rfl, rfl⟩) x
    have h2 := shallow_modify (c := c.modifyRec self
        (fun n => { n with children := some (n.children.getD [] ++ [child]) }))
      (r := child) (f := fun n => { n with parent := some self })
      (fun n => ⟨rfl, rfl, rfl, rfl⟩) x
    exact shallowEq_trans h2 h1
  · rw [if_neg hdir]
    exact shallowEq_refl _

theorem shallow_alloc (c : Cache) (n : Node) {x : Nat} (hx : x < c.store.length) :
    shallowEq ((c.alloc n).1.getRec x) (c.getRec x) := by
  rw [Cache.getRec_alloc_old c n hx]
  exact shallowEq_refl _

/-- Invalid references dereference to the dummy record, which is not a
directory; hence a directory reference is valid. -/
theorem valid_of_isDirectory {c : Cache} {x : Nat}
    (h : (c.getRec x).isDirectory = true) : x < c.store.length := by
  by_contra hv
  rw [Cache.getRec_invalid c x (Nat.le_of_not_lt hv)] at h
  exact absurd h (by decide)

theorem fnc_resolvePath {c : Cache} (r : Remote) (p : String)
    (h : filesHaveNoChildren c) : filesHaveNoChildren (resolvePath c r p).2.1 := by
  unfold resolvePath
  by_cases hp : p = "/"
  · rw [if_pos hp]; exact h
  · rw [if_neg hp]; exact fnc_resolveSegs r p (segsOf p) c.root c h

theorem attachAll_length_ge (node : Nat) :
    ∀ (files : List RFile) (c : Cache),
      c.store.length ≤ (attachAll node files c).1.store.length := by
  intro files
  induction files with
  | nil => intro c; exact Nat.le_refl _
  | cons f fs ih =>
    intro c
    calc c.store.length
        ≤ ((c.alloc (nodeOfRFile f)).1.addChild node (c.alloc (nodeOfRFile f)).2).store.length := by
          simp [Nat.le_succ]
      _ ≤ _ := ih _

theorem fnc_attachAll (node : Nat) :
    ∀ (files : List RFile) (c : Cache), filesHaveNoChildren c →
      filesHaveNoChildren (attachAll node files c).1 := by
  intro files
  induction files with
  | nil => intro c h; exact h
  | cons f fs ih =>
    intro c h
    exact ih _ (fnc_addChild (fnc_alloc h rfl) _ _)

theorem shallow_attachAll (node : Nat) :
    ∀ (files : List RFile) (c : Cache) (x : Nat), x < c.store.length →
      shallowEq ((attachAll node files c).1.getRec x) (c.getRec x) := by
  intro files
  induction files with
  | nil => intro c x _; exact shallowEq_refl _
  | cons f fs ih =>
    intro c x hx
    have hx2 : x < ((c.alloc (nodeOfRFile f)).1.addChild node
        (c.alloc (nodeOfRFile f)).2).store.length := by
      simp [Nat.lt_succ_of_lt hx]
    exact shallowEq_trans (ih _ x hx2)
      (shallowEq_trans (shallow_addChild _ _ _ _) (shallow_alloc c _ hx))

theorem fnc_readdirOp {c : Cache} (r : Remote) (p : String)
    (h : filesHaveNoChildren c) : filesHaveNoChildren (readdirOp c r p).2.1 := by
  show filesHaveNoChildren (readdirBody c r p).2.1
  unfold readdirBody
  cases hres : resolvePath c r p with
  | mk res rest =>
    obtain ⟨c1, k⟩ := rest
    have hc1 : filesHaveNoChildren c1 := by
      have hh := fnc_resolvePath r p h
      rw [hres] at hh
      exact hh
    cases res with
    | error e => exact hc1
    | ok node =>
      dsimp only
      by_cases hdir : (c1.getRec node).isDirectory = true
      · rw [if_pos hdir]
        cases hlist : r.listChildren (c1.getRec node).id with
        | error m => exact hc1
        | ok files =>
          apply fnc_modify (fnc_attachAll node files c1 hc1)
          intro hmem hfd
          have hvalid : node < c1.store.length := valid_of_isDirectory hdir
          have hsh := shallow_attachAll node files c1 node hvalid
          have hfd' : ((attachAll node files c1).1.getRec node).isDirectory = false := hfd
          unfold Node.isDirectory at hfd' hdir
          rw [hsh.2.2.1, hdir] at hfd'
          cases hfd'
      · rw [if_neg hdir]
        exact hc1

theorem fnc_mkdirOp {c : Cache} (r : Remote) (p : String)
    (h : filesHaveNoChildren c) : filesHaveNoChildren (mkdirOp c r p).2.1 := by
  show filesHaveNoChildren (mkdirBody c r p).2.1
  unfold mkdirBody
  dsimp only
  cases hres : resolvePath c r (parentPathOf p) with
  | mk res rest =>
    obtain ⟨c1, k⟩ := rest
    have hc1 : filesHaveNoChildren c1 := by
      have hh := fnc_resolvePath r (parentPathOf p) h
      rw [hres] at hh
      exact hh
    cases res with
    | error e => exact hc1
    | ok parentNode =>
      dsimp only
      cases hcr : r.createFile (c1.getRec parentNode).id (leafOf p) folderMimeType "" 0 with
      | error m => exact hc1
      | ok er => exact fnc_addChild (fnc_alloc hc1 rfl) _ _

theorem fnc_writeFileOp {c : Cache} (r : Remote) (p content : String)
    (h : filesHaveNoChildren c) : filesHaveNoChildren (writeFileOp c r p content).2.1 := by
  show filesHaveNoChildren (writeFileBody c r p content).2.1
  unfold writeFileBody
  dsimp only
  cases hres : resolvePath c r (parentPathOf p) with
  | mk res rest =>
    obtain ⟨c1, k⟩ := rest
    have hc1 : filesHaveNoChildren c1 := by
      have hh := fnc_resolvePath r (parentPathOf p) h
      rw [hres] at hh
      exact hh
    cases res with
    | error e => exact hc1
    | ok parentNode =>
      dsimp only
      cases hff : findFileInFolder r (c1.getRec parentNode).id (leafOf p) with
      | error m => exact hc1
      | ok oexisting =>
        cases oexisting with
        | none =>
          dsimp only
          cases hcr : r.createFile (c1.getRec parentNode).id (leafOf p) "text/plain"
              content content.length with
          | error m => exact hc1
          | ok er => exact fnc_addChild (fnc_alloc hc1 rfl) _ _
        | some existing =>
          dsimp only
          cases hup : r.updateFile existing.id (some (leafOf p)) (some content) none none with
          | error m => exact hc1
          | ok er =>
            dsimp only
            have ha : filesHaveNoChildren (c1.alloc (nodeOfRFile er.1)).1 :=
              fnc_alloc hc1 rfl
            cases hch : ((c1.alloc (nodeOfRFile er.1)).1.getRec parentNode).children with
            | none => exact ha
            | some l =>
              dsimp only
              cases hidx : l.findIdx? (fun cr =>
                  ((c1.alloc (nodeOfRFile er.1)).1.getRec cr).id == existing.id) with
              | none => exact ha
              | some i =>
                dsimp only
                apply fnc_modify ha
                intro hmem hfd
                have := ha _ hmem hfd
                rw [this] at hch
                cases hch

theorem fnc_readFileOp {c : Cache} (r : Remote) (p : String)
    (h : filesHaveNoChildren c) : filesHaveNoChildren (readFileOp c r p).2.1 := by
  show filesHaveNoChildren (readFileBody c r p).2.1
  unfold readFileBody
  cases hres : resolvePath c r p with
  | mk res rest =>
    obtain ⟨c1, k⟩ := rest
    have hc1 : filesHaveNoChildren c1 := by
      have hh := fnc_resolvePath r p h
      rw [hres] at hh
      exact hh
    cases res with
    | error e => exact hc1
    | ok node =>
      dsimp only
      by_cases hdir : (c1.getRec node).isDirectory = true
      · rw [if_pos hdir]; exact hc1
      · rw [if_neg hdir]
        cases r.getContent (c1.getRec node).id with
        | error m => exact hc1
        | ok s => exact hc1

theorem fnc_unlinkOp {c : Cache} (r : Remote) (p : String)
    (h : filesHaveNoChildren c) : filesHaveNoChildren (unlinkOp c r p).2.1 := by
  show filesHaveNoChildren (unlinkBody c r p).2.1
  unfold unlinkBody
  cases hres : resolvePath c r p with
  | mk res rest =>
    obtain ⟨c1, k⟩ := rest
    have hc1 : filesHaveNoChildren c1 := by
      have hh := fnc_resolvePath r p h
      rw [hres] at hh
      exact hh
    cases res with
    | error e => exact hc1
    | ok node =>
      dsimp only
      cases r.deleteFile (c1.getRec node).id with
      | error m => exact hc1
      | ok r' =>
        dsimp only
        cases (c1.getRec node).parent with
        | some pr => exact fnc_removeChild hc1 _ _
        | none => exact hc1

theorem fnc_renameOp {c : Cache} (r : Remote) (a b : String)
    (h : filesHaveNoChildren c) : filesHaveNoChildren (renameOp c r a b).2.1 := by
  show filesHaveNoChildren (renameBody c r a b).2.1
  unfold renameBody
  cases hres : resolvePath c r a with
  | mk res rest =>
    obtain ⟨c1, k⟩ := rest
    have hc1 : filesHaveNoChildren c1 := by
      have hh := fnc_resolvePath r a h
      rw [hres] at hh
      exact hh
    cases res with
    | error e => exact hc1
    | ok node =>
      dsimp only
      cases hres2 : resolvePath c1 r (parentPathOf b) with
      | mk res2 rest2 =>
        obtain ⟨c2, k2⟩ := rest2
        have hc2 : filesHaveNoChildren c2 := by
          have hh := fnc_resolvePath r (parentPathOf b) hc1
          rw [hres2] at hh
          exact hh
        cases res2 with
        | error e => exact hc2
        | ok newParentNode =>
          dsimp only
          cases r.updateFile (c2.getRec node).id (some (leafOf b)) none
              (some (c2.getRec newParentNode).id)
              ((c2.getRec node).parent.map (fun pr => (c2.getRec pr).id)) with
          | error m => exact hc2
          | ok er =>
            dsimp only
            have hc3 : filesHaveNoChildren (c2.modifyRec node
                (fun n => { n with name := leafOf b })) :=
              fnc_modify_keepChildren hc2 (fun n => ⟨rfl, rfl⟩)
            apply fnc_addChild
            cases ((c2.modifyRec node (fun n => { n with name := leafOf b })).getRec
                node).parent with
            | some pr => exact fnc_removeChild hc3 _ _
            | none => exact hc3

theorem fnc_statOp {c : Cache} (r : Remote) (p : String)
    (h : filesHaveNoChildren c) : filesHaveNoChildren (statOp c r p).2.1 := by
  show filesHaveNoChildren (statBody c r p).2.1
  unfold statBody
  cases hres : resolvePath c r p with
  | mk res rest =>
    obtain ⟨c1, k⟩ := rest
    have hc1 : filesHaveNoChildren c1 := by
      have hh := fnc_resolvePath r p h
      rw [hres] at hh
      exact hh
    cases res with
    | error e => exact hc1
    | ok node => exact hc1

theorem fnc_searchOp {c : Cache} (r : Remote) (o : SearchOpts) (p : String)
    (h : filesHaveNoChildren c) : filesHaveNoChildren (searchOp c r o p).2.1 := by
  show filesHaveNoChildren (searchBody c r o p).2.1
  unfold searchBody
  cases hres : resolvePath c r p with
  | mk res rest =>
    obtain ⟨c1, k⟩ := rest
    have hc1 : filesHaveNoChildren c1 := by
      have hh := fnc_resolvePath r p h
      rw [hres] at hh
      exact hh
    cases res with
    | error e => exact hc1
    | ok node =>
      dsimp only
      cases r.listChildren (c1.getRec node).id with
      | error m => exact hc1
      | ok files => exact hc1

theorem fnc_copyOp {c : Cache} (r : Remote) (sp dp : String)
    (h : filesHaveNoChildren c) : filesHaveNoChildren (copyOp c r sp dp).2.1 := by
  show filesHaveNoChildren (copyBody c r sp dp).2.1
  unfold copyBody
  cases hres : resolvePath c r sp with
  | mk res rest =>
    obtain ⟨c1, k⟩ := rest
    have hc1 : filesHaveNoChildren c1 := by
      have hh := fnc_resolvePath r sp h
      rw [hres] at hh
      exact hh
    cases res with
    | error e => exact hc1
    | ok sourceNode =>
      dsimp only
      cases hres2 : resolvePath c1 r (parentPathOf dp) with
      | mk res2 rest2 =>
        obtain ⟨c2, k2⟩ := rest2
        have hc2 : filesHaveNoChildren c2 := by
          have hh := fnc_resolvePath r (parentPathOf dp) hc1
          rw [hres2] at hh
          exact hh
        cases res2 with
        | error e => exact hc2
        | ok destParentNode =>
          dsimp only
          cases r.copyFile (c2.getRec sourceNode).id (c2.getRec destParentNode).id
              (leafOf dp) with
          | error m => exact hc2
          | ok er => exact fnc_addChild (fnc_alloc hc2 rfl) _ _

theorem fnc_execCache {c : Cache} (op : FsOp) (r : Remote)
    (h : filesHaveNoChildren c) : filesHaveNoChildren (execCache op c r) := by
  cases op with
  | readdir p => exact fnc_readdirOp r p h
  | mkdir p => exact fnc_mkdirOp r p h
  | writeFile p content => exact fnc_writeFileOp r p content h
  | readFile p => exact fnc_readFileOp r p h
  | unlink p => exact fnc_unlinkOp r p h
  | rename a b => exact fnc_renameOp r a b h
  | stat p => exact fnc_statOp r p h
  | search o p => exact fnc_searchOp r o p h
  | copy s d => exact fnc_copyOp r s d h

/-- Claim C9: in every state reachable by any sequence of operations from a
freshly connected instance, a File node (one whose mime type is not the
folder marker) never has a `children` set; moreover `addChild` is a no-op
on non-folders. -/
theorem c9_files_never_have_children :
    (∀ c : Cache, ReachWith (fun _ _ _ => True) c → filesHaveNoChildren c) ∧
    (∀ (c : Cache) (self child : Nat), (c.getRec self).isDirectory = false →
      c.addChild self child = c) := by
  constructor
  · intro c h
    induction h with
    | init n hc hp =>
      intro m hm hmd
      simp only [initialCache, List.mem_singleton] at hm
      subst hm
      exact hc
    | step c r op hr hop ih => exact fnc_execCache op r ih
  · intro c self child h
    exact Cache.addChild_not_dir h

/-- Witness for claim C9 at a concrete reachable state and a concrete
non-folder `addChild` call. -/
theorem c9_witness :
    filesHaveNoChildren (execCache (.mkdir "/d") wCache wRemoteD) ∧
    wCache.addChild 5 0 = wCache :=
  ⟨c9_files_never_have_children.1 _
      (ReachWith.step wCache wRemoteD (.mkdir "/d") (ReachWith.init wRoot rfl rfl)
        trivial),
    c9_files_never_have_children.2 wCache 5 0 (by decide)⟩

/-! ## Well-formedness and acyclicity through the resolver -/

theorem findChildByName_valid {c : Cache} {cur ch : Nat} {part : String}
    (hWF : WF c) (hcur : cur < c.store.length)
    (h : findChildByName c cur part = some ch) : ch < c.store.length := by
  unfold findChildByName at h
  cases hch : (c.getRec cur).children with
  | none => rw [hch] at h; cases h
  | some l =>
    rw [hch] at h
    exact hWF.2.2 _ (Cache.getRec_mem c hcur) l hch ch (List.mem_of_find?_eq_some h)

theorem resolveSegs_inv (r : Remote) (full : String) :
    ∀ (segs : List String) (cur : Nat) (c : Cache), WF c → Terminating c →
      cur < c.store.length →
      WF (resolveSegs r full segs cur c).2.1 ∧
      Terminating (resolveSegs r full segs cur c).2.1 ∧
      (resolveSegs r full segs cur c).2.1.root = c.root ∧
      c.store.length ≤ (resolveSegs r full segs cur c).2.1.store.length ∧
      (∀ n, (resolveSegs r full segs cur c).1 = .ok n →
        n < (resolveSegs r full segs cur c).2.1.store.length) := by
  intro segs
  induction segs with
  | nil =>
    intro cur c hWF hT hcur
    rw [resolveSegs_nil]
    exact ⟨hWF, hT, rfl, Nat.le_refl _, fun n hn => by cases hn; exact hcur⟩
  | cons part rest ih =>
    intro cur c hWF hT hcur
    cases hdir : (c.getRec cur).isDirectory with
    | false =>
      rw [resolveSegs_cons_notdir r full part rest hdir]
      exact ⟨hWF, hT, rfl, Nat.le_refl _, fun n hn => by cases hn⟩
    | true =>
      cases hfind : findChildByName c cur part with
      | some ch =>
        rw [resolveSegs_cons_hit r full part rest hdir hfind]
        exact ih ch c hWF hT (findChildByName_valid hWF hcur hfind)
      | none =>
        cases hr : r.listByName (c.getRec cur).id part with
        | error m =>
          rw [resolveSegs_cons_miss_err r full part rest hdir hfind hr]
          exact ⟨hWF, hT, rfl, Nat.le_refl _, fun n hn => by cases hn⟩
        | ok files =>
          cases files with
          | nil =>
            rw [resolveSegs_cons_miss_empty r full part rest hdir hfind hr]
            exact ⟨hWF, hT, rfl, Nat.le_refl _, fun n hn => by cases hn⟩
          | cons f fs =>
            rw [resolveSegs_cons_miss_found r full part rest hdir hfind hr]
            have hWF2 : WF ((c.alloc (nodeOfRFile f)).1.addChild cur
                (c.alloc (nodeOfRFile f)).2) :=
              WF_addChild (WF_alloc hWF rfl rfl)
                (by simpa using Nat.lt_succ_of_lt hcur) (by simp [Cache.alloc])
            have hT2 : Terminating ((c.alloc (nodeOfRFile f)).1.addChild cur
                (c.alloc (nodeOfRFile f)).2) :=
              terminating_attach_fresh hT hWF.2.1 rfl hcur
            have hcur2 : (c.alloc (nodeOfRFile f)).2 <
                ((c.alloc (nodeOfRFile f)).1.addChild cur
                  (c.alloc (nodeOfRFile f)).2).store.length := by
              simp [Cache.alloc]
            obtain ⟨h1, h2, h3, h4, h5⟩ := ih _ _ hWF2 hT2 hcur2
            refine ⟨h1, h2, ?_, ?_, h5⟩
            · rw [h3]; simp
            · calc c.store.length
                  ≤ c.store.length + 1 := Nat.le_succ _
                _ = ((c.alloc (nodeOfRFile f)).1.addChild cur
                    (c.alloc (nodeOfRFile f)).2).store.length := by simp
                _ ≤ _ := h4

theorem resolvePath_inv {c : Cache} (r : Remote) (p : String)
    (hWF : WF c) (hT : Terminating c) :
    WF (resolvePath c r p).2.1 ∧
    Terminating (resolvePath c r p).2.1 ∧
    (resolvePath c r p).2.1.root = c.root ∧
    c.store.length ≤ (resolvePath c r p).2.1.store.length ∧
    (∀ n, (resolvePath c r p).1 = .ok n → n < (resolvePath c r p).2.1.store.length) := by
  unfold resolvePath
  by_cases hp : p = "/"
  · rw [if_pos hp]
    exact ⟨hWF, hT, rfl, Nat.le_refl _, fun n hn => by cases hn; exact hWF.1⟩
  · rw [if_neg hp]
    exact resolveSegs_inv r p (segsOf p) c.root c hWF hT hWF.1

theorem attachAll_inv (node : Nat) :
    ∀ (files : List RFile) (c : Cache), WF c → Terminating c →
      node < c.store.length →
      WF (attachAll node files c).1 ∧
      Terminating (attachAll node files c).1 ∧
      c.store.length ≤ (attachAll node files c).1.store.length ∧
      (∀ x ∈ (attachAll node files c).2, x < (attachAll node files c).1.store.length) := by
  intro files
  induction files with
  | nil =>
    intro c hWF hT hnode
    exact ⟨hWF, hT, Nat.le_refl _, fun x hx => by cases hx⟩
  | cons f fs ih =>
    intro c hWF hT hnode
    have hWF2 : WF ((c.alloc (nodeOfRFile f)).1.addChild node (c.alloc (nodeOfRFile f)).2) :=
      WF_addChild (WF_alloc hWF rfl rfl) (by simpa using Nat.lt_succ_of_lt hnode)
        (by simp [Cache.alloc])
    have hT2 : Terminating ((c.alloc (nodeOfRFile f)).1.addChild node
        (c.alloc (nodeOfRFile f)).2) :=
      terminating_attach_fresh hT hWF.2.1 rfl hnode
    have hnode2 : node < ((c.alloc (nodeOfRFile f)).1.addChild node
        (c.alloc (nodeOfRFile f)).2).store.length := by
      simp [Nat.lt_succ_of_lt hnode]
    obtain ⟨h1, h2, h3, h4⟩ := ih _ hWF2 hT2 hnode2
    refine ⟨h1, h2, ?_, ?_⟩
    · calc c.store.length
          ≤ c.store.length + 1 := Nat.le_succ _
        _ = ((c.alloc (nodeOfRFile f)).1.addChild node
            (c.alloc (nodeOfRFile f)).2).store.length := by simp
        _ ≤ _ := h3
    · intro x hx
      dsimp only [attachAll] at hx ⊢
      simp only [List.mem_cons] at hx
      rcases hx with heq | hx
      · subst heq
        calc (c.alloc (nodeOfRFile f)).2
            < ((c.alloc (nodeOfRFile f)).1.addChild node
                (c.alloc (nodeOfRFile f)).2).store.length := by simp [Cache.alloc]
          _ ≤ _ := h3
      · exact h4 x hx

theorem inv_readdirOp {c : Cache} (r : Remote) (p : String)
    (hWF : WF c) (hT : Terminating c) :
    WF (readdirOp c r p).2.1 ∧ Terminating (readdirOp c r p).2.1 := by
  show WF (readdirBody c r p).2.1 ∧ Terminating (readdirBody c r p).2.1
  unfold readdirBody
  cases hres : resolvePath c r p with
  | mk res rest =>
    obtain ⟨c1, k⟩ := rest
    have hi := resolvePath_inv r p hWF hT
    rw [hres] at hi
    obtain ⟨hWF1, hT1, _, _, hok⟩ := hi
    cases res with
    | error e => exact ⟨hWF1, hT1⟩
    | ok node =>
      dsimp only
      by_cases hdir : (c1.getRec node).isDirectory = true
      · rw [if_pos hdir]
        cases hlist : r.listChildren (c1.getRec node).id with
        | error m => exact ⟨hWF1, hT1⟩
        | ok files =>
          have hnode : node < c1.store.length := hok node rfl
          obtain ⟨hA1, hA2, hA3, hA4⟩ := attachAll_inv node files c1 hWF1 hT1 hnode
          constructor
          · apply WF_modify hA1
            · intro q hq
              exact Or.inl hq
            · intro l x hl hx
              simp only [Option.some.injEq] at hl
              subst hl
              exact Or.inr (hA4 x hx)
          · exact terminating_congr (parentOf_modify_keep (fun n => rfl)) hA2
      · rw [if_neg hdir]
        exact ⟨hWF1, hT1⟩

theorem inv_mkdirOp {c : Cache} (r : Remote) (p : String)
    (hWF : WF c) (hT : Terminating c) :
    WF (mkdirOp c r p).2.1 ∧ Terminating (mkdirOp c r p).2.1 := by
  show WF (mkdirBody c r p).2.1 ∧ Terminating (mkdirBody c r p).2.1
  unfold mkdirBody
  dsimp only
  cases hres : resolvePath c r (parentPathOf p) with
  | mk res rest =>
    obtain ⟨c1, k⟩ := rest
    have hi := resolvePath_inv r (parentPathOf p) hWF hT
    rw [hres] at hi
    obtain ⟨hWF1, hT1, _, _, hok⟩ := hi
    cases res with
    | error e => exact ⟨hWF1, hT1⟩
    | ok parentNode =>
      dsimp only
      cases r.createFile (c1.getRec parentNode).id (leafOf p) folderMimeType "" 0 with
      | error m => exact ⟨hWF1, hT1⟩
      | ok er =>
        have hvalid : parentNode < c1.store.length := hok parentNode rfl
        exact ⟨WF_addChild (WF_alloc hWF1 rfl rfl)
            (by simpa using Nat.lt_succ_of_lt hvalid) (by simp [Cache.alloc]),
          terminating_attach_fresh hT1 hWF1.2.1 rfl hvalid⟩

theorem inv_copyOp {c : Cache} (r : Remote) (sp dp : String)
    (hWF : WF c) (hT : Terminating c) :
    WF (copyOp c r sp dp).2.1 ∧ Terminating (copyOp c r sp dp).2.1 := by
  show WF (copyBody c r sp dp).2.1 ∧ Terminating (copyBody c r sp dp).2.1
  unfold copyBody
  cases hres : resolvePath c r sp with
  | mk res rest =>
    obtain ⟨c1, k⟩ := rest
    have hi := resolvePath_inv r sp hWF hT
    rw [hres] at hi
    obtain ⟨hWF1, hT1, _, _, _⟩ := hi
    cases res with
    | error e => exact ⟨hWF1, hT1⟩
    | ok sourceNode =>
      dsimp only
      cases hres2 : resolvePath c1 r (parentPathOf dp) with
      | mk res2 rest2 =>
        obtain ⟨c2, k2⟩ := rest2
        have hi2 := resolvePath_inv r (parentPathOf dp) hWF1 hT1
        rw [hres2] at hi2
        obtain ⟨hWF2, hT2, _, _, hok2⟩ := hi2
        cases res2 with
        | error e => exact ⟨hWF2, hT2⟩
        | ok destParentNode =>
          dsimp only
          cases r.copyFile (c2.getRec sourceNode).id (c2.getRec destParentNode).id
              (leafOf dp) with
          | error m => exact ⟨hWF2, hT2⟩
          | ok er =>
            have hvalid : destParentNode < c2.store.length := hok2 destParentNode rfl
            exact ⟨WF_addChild (WF_alloc hWF2 rfl rfl)
                (by simpa using Nat.lt_succ_of_lt hvalid) (by simp [Cache.alloc]),
              terminating_attach_fresh hT2 hWF2.2.1 rfl hvalid⟩

theorem inv_writeFileOp {c : Cache} (r : Remote) (p content : String)
    (hWF : WF c) (hT : Terminating c) :
    WF (writeFileOp c r p content).2.1 ∧ Terminating (writeFileOp c r p content).2.1 := by
  show WF (writeFileBody c r p content).2.1 ∧ Terminating (writeFileBody c r p content).2.1
  unfold writeFileBody
  dsimp only
  cases hres : resolvePath c r (parentPathOf p) with
  | mk res rest =>
    obtain ⟨c1, k⟩ := rest
    have hi := resolvePath_inv r (parentPathOf p) hWF hT
    rw [hres] at hi
    obtain ⟨hWF1, hT1, _, _, hok⟩ := hi
    cases res with
    | error e => exact ⟨hWF1, hT1⟩
    | ok parentNode =>
      dsimp only
      cases findFileInFolder r (c1.getRec parentNode).id (leafOf p) with
      | error m => exact ⟨hWF1, hT1⟩
      | ok oexisting =>
        cases oexisting with
        | none =>
          dsimp only
          cases r.createFile (c1.getRec parentNode).id (leafOf p) "text/plain"
              content content.length with
          | error m => exact ⟨hWF1, hT1⟩
          | ok er =>
            have hvalid : parentNode < c1.store.length := hok parentNode rfl
            exact ⟨WF_addChild (WF_alloc hWF1 rfl rfl)
                (by simpa using Nat.lt_succ_of_lt hvalid) (by simp [Cache.alloc]),
              terminating_attach_fresh hT1 hWF1.2.1 rfl hvalid⟩
        | some existing =>
          dsimp only
          cases r.updateFile existing.id (some (leafOf p)) (some content) none none with
          | error m => exact ⟨hWF1, hT1⟩
          | ok er =>
            dsimp only
            have hWFa : WF (c1.alloc (nodeOfRFile er.1)).1 := WF_alloc hWF1 rfl rfl
            have hTa : Terminating (c1.alloc (nodeOfRFile er.1)).1 :=
              terminating_congr (parentOf_alloc rfl) hT1
            cases hch : ((c1.alloc (nodeOfRFile er.1)).1.getRec parentNode).children with
            | none => exact ⟨hWFa, hTa⟩
            | some l =>
              dsimp only
              cases l.findIdx? (fun cr =>
                  ((c1.alloc (nodeOfRFile er.1)).1.getRec cr).id == existing.id) with
              | none => exact ⟨hWFa, hTa⟩
              | some i =>
                dsimp only
                constructor
                · apply WF_modify hWFa
                  · intro q hq
                    exact Or.inl hq
                  · intro l' x hl' hx
                    simp only [Option.some.injEq] at hl'
                    subst hl'
                    rcases List.mem_or_eq_of_mem_set hx with hxl | rfl
                    · exact Or.inl ⟨l, hch, hxl⟩
                    · exact Or.inr (by simp [Cache.alloc])
                · exact terminating_congr (parentOf_modify_keep (fun n => rfl)) hTa

theorem inv_readFileOp {c : Cache} (r : Remote) (p : String)
    (hWF : WF c) (hT : Terminating c) :
    WF (readFileOp c r p).2.1 ∧ Terminating (readFileOp c r p).2.1 := by
  show WF (readFileBody c r p).2.1 ∧ Terminating (readFileBody c r p).2.1
  unfold readFileBody
  cases hres : resolvePath c r p with
  | mk res rest =>
    obtain ⟨c1, k⟩ := rest
    have hi := resolvePath_inv r p hWF hT
    rw [hres] at hi
    obtain ⟨hWF1, hT1, _, _, _⟩ := hi
    cases res with
    | error e => exact ⟨hWF1, hT1⟩
    | ok node =>
      dsimp only
      by_cases hdir : (c1.getRec node).isDirectory = true
      · rw [if_pos hdir]; exact ⟨hWF1, hT1⟩
      · rw [if_neg hdir]
        cases r.getContent (c1.getRec node).id with
        | error m => exact ⟨hWF1, hT1⟩
        | ok s => exact ⟨hWF1, hT1⟩

theorem inv_unlinkOp {c : Cache} (r : Remote) (p : String)
    (hWF : WF c) (hT : Terminating c) :
    WF (unlinkOp c r p).2.1 ∧ Terminating (unlinkOp c r p).2.1 := by
  show WF (unlinkBody c r p).2.1 ∧ Terminating (unlinkBody c r p).2.1
  unfold unlinkBody
  cases hres : resolvePath c r p with
  | mk res rest =>
    obtain ⟨c1, k⟩ := rest
    have hi := resolvePath_inv r p hWF hT
    rw [hres] at hi
    obtain ⟨hWF1, hT1, _, _, _⟩ := hi
    cases res with
    | error e => exact ⟨hWF1, hT1⟩
    | ok node =>
      dsimp only
      cases r.deleteFile (c1.getRec node).id with
      | error m => exact ⟨hWF1, hT1⟩
      | ok r' =>
        dsimp only
        cases (c1.getRec node).parent with
        | some pr =>
          exact ⟨WF_removeChild hWF1 _ _,
            terminating_congr (parentOf_removeChild c1 _ _) hT1⟩
        | none => exact ⟨hWF1, hT1⟩

theorem inv_statOp {c : Cache} (r : Remote) (p : String)
    (hWF : WF c) (hT : Terminating c) :
    WF (statOp c r p).2.1 ∧ Terminating (statOp c r p).2.1 := by
  show WF (statBody c r p).2.1 ∧ Terminating (statBody c r p).2.1
  unfold statBody
  cases hres : resolvePath c r p with
  | mk res rest =>
    obtain ⟨c1, k⟩ := rest
    have hi := resolvePath_inv r p hWF hT
    rw [hres] at hi
    obtain ⟨hWF1, hT1, _, _, _⟩ := hi
    cases res with
    | error e => exact ⟨hWF1, hT1⟩
    | ok node => exact ⟨hWF1, hT1⟩

theorem inv_searchOp {c : Cache} (r : Remote) (o : SearchOpts) (p : String)
    (hWF : WF c) (hT : Terminating c) :
    WF (searchOp c r o p).2.1 ∧ Terminating (searchOp c r o p).2.1 := by
  show WF (searchBody c r o p).2.1 ∧ Terminating (searchBody c r o p).2.1
  unfold searchBody
  cases hres : resolvePath c r p with
  | mk res rest =>
    obtain ⟨c1, k⟩ := rest
    have hi := resolvePath_inv r p hWF hT
    rw [hres] at hi
    obtain ⟨hWF1, hT1, _, _, _⟩ := hi
    cases res with
    | error e => exact ⟨hWF1, hT1⟩
    | ok node =>
      dsimp only
      cases r.listChildren (c1.getRec node).id with
      | error m => exact ⟨hWF1, hT1⟩
      | ok files => exact ⟨hWF1, hT1⟩

theorem inv_renameOp {c : Cache} (r : Remote) (a b : String)
    (hWF : WF c) (hT : Terminating c) (hsafe : RenameSafeCond c r a b) :
    WF (renameOp c r a b).2.1 ∧ Terminating (renameOp c r a b).2.1 := by
  show WF (renameBody c r a b).2.1 ∧ Terminating (renameBody c r a b).2.1
  unfold renameBody
  unfold RenameSafeCond at hsafe
  cases hres : resolvePath c r a with
  | mk res rest =>
    obtain ⟨c1, k⟩ := rest
    rw [hres] at hsafe
    have hi := resolvePath_inv r a hWF hT
    rw [hres] at hi
    obtain ⟨hWF1, hT1, _, hlen1, hok1⟩ := hi
    cases res with
    | error e => exact ⟨hWF1, hT1⟩
    | ok node =>
      dsimp only
      dsimp only at hsafe
      cases hres2 : resolvePath c1 r (parentPathOf b) with
      | mk res2 rest2 =>
        obtain ⟨c2, k2⟩ := rest2
        rw [hres2] at hsafe
        have hi2 := resolvePath_inv r (parentPathOf b) hWF1 hT1
        rw [hres2] at hi2
        obtain ⟨hWF2, hT2, _, hlen2, hok2⟩ := hi2
        cases res2 with
        | error e => exact ⟨hWF2, hT2⟩
        | ok q =>
          dsimp only
          dsimp only at hsafe
          have hnode : node < c2.store.length := Nat.lt_of_lt_of_le (hok1 node rfl) hlen2
          have hq : q < c2.store.length := hok2 q rfl
          cases r.updateFile (c2.getRec node).id (some (leafOf b)) none
              (some (c2.getRec q).id)
              ((c2.getRec node).parent.map (fun pr => (c2.getRec pr).id)) with
          | error m => exact ⟨hWF2, hT2⟩
          | ok er =>
            dsimp only
            have hWF3 : WF (c2.modifyRec node (fun n => { n with name := leafOf b })) := by
              apply WF_modify hWF2
              · intro p1 hp1
                exact Or.inl hp1
              · intro l x hl hx
                exact Or.inl ⟨l, hl, hx⟩
            have hT3 : Terminating (c2.modifyRec node
                (fun n => { n with name := leafOf b })) :=
              terminating_congr (parentOf_modify_keep (fun n => rfl)) hT2
            have hpar3 : ∀ x, parentOf (c2.modifyRec node
                (fun n => { n with name := leafOf b })) x = parentOf c2 x :=
              parentOf_modify_keep (fun n => rfl)
            cases hp3 : ((c2.modifyRec node
                (fun n => { n with name := leafOf b })).getRec node).parent with
            | some pr =>
              dsimp only
              have hWF4 := WF_removeChild hWF3 pr
                (((c2.modifyRec node (fun n => { n with name := leafOf b })).getRec
                  node).id)
              have hT4 : Terminating ((c2.modifyRec node
                  (fun n => { n with name := leafOf b })).removeChild pr
                  (((c2.modifyRec node (fun n => { n with name := leafOf b })).getRec
                    node).id)).1 :=
                terminating_congr (parentOf_removeChild _ pr _) hT3
              have hpar4 : ∀ x, parentOf ((c2.modifyRec node
                  (fun n => { n with name := leafOf b })).removeChild pr
                  (((c2.modifyRec node (fun n => { n with name := leafOf b })).getRec
                    node).id)).1 x = parentOf c2 x :=
                fun x => (parentOf_removeChild _ pr _ x).trans (hpar3 x)
              have hsafe4 : ∀ m, iterParent ((c2.modifyRec node
                  (fun n => { n with name := leafOf b })).removeChild pr
                  (((c2.modifyRec node (fun n => { n with name := leafOf b })).getRec
                    node).id)).1 m (some q) ≠ some node := by
                intro m
                rw [iterParent_congr hpar4]
                exact hsafe m
              exact ⟨WF_addChild hWF4 (by simpa using hq) (by simpa using hnode),
                terminating_addChild hT4 hsafe4⟩
            | none =>
              dsimp only
              have hsafe3 : ∀ m, iterParent (c2.modifyRec node
                  (fun n => { n with name := leafOf b })) m (some q) ≠ some node := by
                intro m
                rw [iterParent_congr hpar3]
                exact hsafe m
              exact ⟨WF_addChild hWF3 (by simpa using hq) (by simpa using hnode),
                terminating_addChild hT3 hsafe3⟩

theorem inv_execCache {c : Cache} (op : FsOp) (r : Remote)
    (hWF : WF c) (hT : Terminating c) (hop : SafeOp c r op) :
    WF (execCache op c r) ∧ Terminating (execCache op c r) := by
  cases op with
  | readdir p => exact inv_readdirOp r p hWF hT
  | mkdir p => exact inv_mkdirOp r p hWF hT
  | writeFile p content => exact inv_writeFileOp r p content hWF hT
  | readFile p => exact inv_readFileOp r p hWF hT
  | unlink p => exact inv_unlinkOp r p hWF hT
  | rename a b => exact inv_renameOp r a b hWF hT hop
  | stat p => exact inv_statOp r p hWF hT
  | search o p => exact inv_searchOp r o p hWF hT
  | copy s d => exact inv_copyOp r s d hWF hT

theorem reach_safe_wf_terminating (c : Cache) (h : ReachWith SafeOp c) :
    WF c ∧ Terminating c := by
  induction h with
  | init n hc hp =>
    constructor
    · refine ⟨by simp [initialCache], ?_, ?_⟩
      · intro m hm p hpp
        simp only [initialCache, List.mem_singleton] at hm
        subst hm
        rw [hp] at hpp
        cases hpp
      · intro m hm l hl x hx
        simp only [initialCache, List.mem_singleton] at hm
        subst hm
        rw [hc] at hl
        cases hl
    · intro x
      refine ⟨1, ?_⟩
      rw [iterParent_succ]
      cases x with
      | zero =>
        have : parentOf (initialCache n) 0 = none := by
          unfold parentOf initialCache
          simp [hp]
        rw [this]
        rfl
      | succ x =>
        have : parentOf (initialCache n) (x + 1) = none := by
          unfold parentOf initialCache
          simp
        rw [this]
        rfl
  | step c r op hr hop ih => exact inv_execCache op r ih.1 ih.2 hop

theorem iterParent_self_loop {c : Cache} {x : Nat} (h : parentOf c x = some x) :
    ∀ k, iterParent c k (some x) = some x := by
  intro k
  induction k with
  | zero => rfl
  | succ k ih => rw [iterParent_succ, h]; exact ih

/-- Claim C4 (amended): in every state reachable from a freshly connected
instance by operations whose `rename` steps re-attach the resolved source
node under a resolved destination parent whose parent chain does not pass
through that node, the mirror tree has no cycles: following parent links
from any node terminates. -/
theorem c4_no_cycles_under_safe_renames (c : Cache) (h : ReachWith SafeOp c) :
    Terminating c :=
  (reach_safe_wf_terminating c h).2

/-- Witness for claim C4 at a concrete reachable state. -/
theorem c4_witness :
    Terminating (execCache (.mkdir "/d") wCache wRemoteD) :=
  c4_no_cycles_under_safe_renames _
    (ReachWith.step wCache wRemoteD (.mkdir "/d") (ReachWith.init wRoot rfl rfl)
      trivial)

/-- Counterexample for claim C4 as stated: `rename('/d', '/d/x')` resolves
the folder `d` as both the source node and the destination parent, and
`addChild` then attaches `d` to itself — the reachable post-state has a
parent-link cycle. -/
theorem c4_counterexample :
    ReachWith (fun _ _ _ => True)
      (execCache (.rename "/d" "/d/x") wCache wRemoteD) ∧
    ¬ Terminating (execCache (.rename "/d" "/d/x") wCache wRemoteD) := by
  constructor
  · exact ReachWith.step wCache wRemoteD (.rename "/d" "/d/x")
      (ReachWith.init wRoot rfl rfl) trivial
  · intro hT
    obtain ⟨k, hk⟩ := hT 1
    rw [iterParent_self_loop (by decide) k] at hk
    cases hk

/-! ## Cache-extension lemmas (the second-resolution argument) -/

theorem cacheExt_refl (c : Cache) : CacheExt c c :=
  ⟨rfl, Nat.le_refl _, fun x _ => ⟨rfl, rfl, rfl⟩,
    fun x _ l hl => ⟨[], by simp [hl]⟩⟩

theorem cacheExt_trans {a b c : Cache} (h1 : CacheExt a b) (h2 : CacheExt b c) :
    CacheExt a c := by
  obtain ⟨hr1, hl1, hs1, hc1⟩ := h1
  obtain ⟨hr2, hl2, hs2, hc2⟩ := h2
  refine ⟨hr2.trans hr1, hl1.trans hl2, ?_, ?_⟩
  · intro x hx
    have hxb := Nat.lt_of_lt_of_le hx hl1
    exact ⟨(hs2 x hxb).1.trans (hs1 x hx).1, (hs2 x hxb).2.1.trans (hs1 x hx).2.1,
      (hs2 x hxb).2.2.trans (hs1 x hx).2.2⟩
  · intro x hx l hl
    obtain ⟨t, ht⟩ := hc1 x hx l hl
    obtain ⟨t', ht'⟩ := hc2 x (Nat.lt_of_lt_of_le hx hl1) (l ++ t) ht
    exact ⟨t ++ t', by rw [ht', List.append_assoc]⟩

theorem cacheExt_alloc (c : Cache) (n : Node) : CacheExt c (c.alloc n).1 := by
  refine ⟨rfl, by simp [Nat.le_succ], ?_, ?_⟩
  · intro x hx
    rw [Cache.getRec_alloc_old c n hx]
    exact ⟨rfl, rfl, rfl⟩
  · intro x hx l hl
    rw [Cache.getRec_alloc_old c n hx]
    exact ⟨[], by simp [hl]⟩

theorem childrenOf_modify_keep {c : Cache} {r : Nat} {f : Node → Node}
    (hf : ∀ n, (f n).children = n.children) (x : Nat) :
    ((c.modifyRec r f).getRec x).children = (c.getRec x).children := by
  by_cases hv : r < c.store.length
  · by_cases hx : x = r
    · subst hx
      rw [Cache.getRec_modifyRec_self c f hv, hf]
    · rw [Cache.getRec_modifyRec_ne c f hx]
  · rw [Cache.modifyRec_invalid c f (Nat.le_of_not_lt hv)]

theorem cacheExt_addChild (c : Cache) (self child : Nat) :
    CacheExt c (c.addChild self child) := by
  refine ⟨by simp, by simp, ?_, ?_⟩
  · intro x hx
    have hsh := shallow_addChild c self child x
    exact ⟨hsh.1, hsh.2.1, hsh.2.2.1⟩
  · intro x hx l hl
    unfold Cache.addChild
    by_cases hdir : (c.getRec self).isDirectory
    · rw [if_pos hdir]
      have hkeep : ∀ y, (((c.modifyRec self
          (fun n => { n with children := some (n.children.getD [] ++ [child]) })).modifyRec
          child (fun n => { n with parent := some self })).getRec y).children =
          ((c.modifyRec self
          (fun n => { n with children := some (n.children.getD [] ++ [child]) })).getRec
          y).children :=
        childrenOf_modify_keep (fun n => rfl)
      rw [hkeep]
      by_cases hx' : x = self
      · subst hx'
        rw [Cache.getRec_modifyRec_self c _ (valid_of_isDirectory hdir)]
        exact ⟨[child], by simp [hl]⟩
      · rw [Cache.getRec_modifyRec_ne c _ hx']
        exact ⟨[], by simp [hl]⟩
    · rw [if_neg hdir]
      exact ⟨[], by simp [hl]⟩

theorem resolveSegs_ext (r : Remote) (full : String) :
    ∀ (segs : List String) (cur : Nat) (c : Cache),
      CacheExt c (resolveSegs r full segs cur c).2.1 := by
  intro segs
  induction segs with
  | nil => intro cur c; exact cacheExt_refl c
  | cons part rest ih =>
    intro cur c
    cases hdir : (c.getRec cur).isDirectory with
    | false => rw [resolveSegs_cons_notdir r full part rest hdir]; exact cacheExt_refl c
    | true =>
      cases hfind : findChildByName c cur part with
      | some ch =>
        rw [resolveSegs_cons_hit r full part rest hdir hfind]
        exact ih ch c
      | none =>
        cases hr : r.listByName (c.getRec cur).id part with
        | error m =>
          rw [resolveSegs_cons_miss_err r full part rest hdir hfind hr]
          exact cacheExt_refl c
        | ok files =>
          cases files with
          | nil =>
            rw [resolveSegs_cons_miss_empty r full part rest hdir hfind hr]
            exact cacheExt_refl c
          | cons f fs =>
            rw [resolveSegs_cons_miss_found r full part rest hdir hfind hr]
            exact cacheExt_trans
              (cacheExt_trans (cacheExt_alloc c (nodeOfRFile f))
                (cacheExt_addChild _ cur _))
              (ih _ _)

theorem find?_congr_on {α : Type} {p q : α → Bool} :
    ∀ l : List α, (∀ x ∈ l, p x = q x) → l.find? p = l.find? q := by
  intro l
  induction l with
  | nil => intro _; rfl
  | cons a as ih =>
    intro h
    rw [List.find?_cons, List.find?_cons, h a (List.mem_cons_self a as),
      ih (fun x hx => h x (List.mem_cons_of_mem a hx))]

theorem find?_append_some {α : Type} {p : α → Bool} {a : α} :
    ∀ {l t : List α}, l.find? p = some a → (l ++ t).find? p = some a := by
  intro l t h
  rw [List.find?_append, h]
  rfl

theorem find?_append_none {α : Type} {p : α → Bool} :
    ∀ {l t : List α}, l.find? p = none → (l ++ t).find? p = t.find? p := by
  intro l t h
  rw [List.find?_append, h]
  rfl

/-- A cache hit at a node survives any later pure extension of the cache:
the extension appends to the child list and preserves names, so the first
name match is unchanged. -/
theorem findChildByName_mono {c c' : Cache} {cur ch : Nat} {part : String}
    (hWF : WF c) (hcur : cur < c.store.length) (hext : CacheExt c c')
    (h : findChildByName c cur part = some ch) :
    findChildByName c' cur part = some ch := by
  unfold findChildByName at h ⊢
  cases hch : (c.getRec cur).children with
  | none => rw [hch] at h; cases h
  | some l =>
    rw [hch] at h
    obtain ⟨t, ht⟩ := hext.2.2.2 cur hcur l hch
    rw [ht]
    have hnames : ∀ x ∈ l, ((c'.getRec x).name == part) = ((c.getRec x).name == part) := by
      intro x hx
      have hxv : x < c.store.length :=
        hWF.2.2 _ (Cache.getRec_mem c hcur) l hch x hx
      rw [(hext.2.2.1 x hxv).2.1]
    exact find?_append_some ((find?_congr_on l hnames).trans h)

/-- Entries returned by the name-filtered listing all carry the filtered
name. -/
theorem listByName_name {r : Remote} {pid part : String} {files : List RFile}
    (h : r.listByName pid part = .ok files) : ∀ f ∈ files, f.name = part := by
  unfold Remote.listByName at h
  cases hfa : r.fail with
  | some m => rw [hfa] at h; cases h
  | none =>
    rw [hfa] at h
    simp only [Except.ok.injEq] at h
    subst h
    intro f hf2
    have hm := (List.mem_filter.mp hf2).2
    have hb : (f.name == part) = true := by
      cases hpp : f.parents.contains pid <;> rw [hpp] at hm <;> simp_all
    exact eq_of_beq hb

/-- After a miss materializes the first remote entry and attaches it, any
later pure extension of the cache finds that entry by name (the earlier
siblings did not match, and names are preserved). -/
theorem findChildByName_after_attach {c c_g : Cache} {cur : Nat} {part : String}
    {f : RFile} (hWF : WF c) (hcur : cur < c.store.length)
    (hdir : (c.getRec cur).isDirectory = true)
    (hmiss : findChildByName c cur part = none)
    (hname : f.name = part)
    (hext : CacheExt ((c.alloc (nodeOfRFile f)).1.addChild cur (c.alloc (nodeOfRFile f)).2) c_g) :
    findChildByName c_g cur part = some (c.alloc (nodeOfRFile f)).2 := by
  have hextc : CacheExt c c_g :=
    cacheExt_trans (cacheExt_trans (cacheExt_alloc c (nodeOfRFile f))
      (cacheExt_addChild _ cur _)) hext
  set c2 := (c.alloc (nodeOfRFile f)).1.addChild cur (c.alloc (nodeOfRFile f)).2 with hc2
  have hlen2 : c2.store.length = c.store.length + 1 := by simp [hc2]
  have hdir1 : ((c.alloc (nodeOfRFile f)).1.getRec cur).isDirectory = true := by
    rw [Cache.getRec_alloc_old c _ hcur]; exact hdir
  -- the children list of `cur` in `c2` is the old list (possibly absent,
  -- then treated as nil) with the new reference appended
  have hstep : c2 = ((c.alloc (nodeOfRFile f)).1.modifyRec cur (fun n =>
      { n with children := some (n.children.getD [] ++ [(c.alloc (nodeOfRFile f)).2]) })).modifyRec
      (c.alloc (nodeOfRFile f)).2 (fun n => { n with parent := some cur }) := by
    rw [hc2]
    unfold Cache.addChild
    rw [if_pos hdir1]
  have hkeep : ∀ y, ((((c.alloc (nodeOfRFile f)).1.modifyRec cur (fun n =>
      { n with children := some (n.children.getD [] ++ [(c.alloc (nodeOfRFile f)).2]) })).modifyRec
      (c.alloc (nodeOfRFile f)).2 (fun n => { n with parent := some cur })).getRec y).children =
      (((c.alloc (nodeOfRFile f)).1.modifyRec cur (fun n =>
      { n with children := some (n.children.getD [] ++ [(c.alloc (nodeOfRFile f)).2]) })).getRec
      y).children :=
    childrenOf_modify_keep (fun n => rfl)
  have hch2 : (c2.getRec cur).children =
      some ((c.getRec cur).children.getD [] ++ [(c.alloc (nodeOfRFile f)).2]) := by
    rw [hstep, hkeep cur,
      Cache.getRec_modifyRec_self _ _ (by simpa using Nat.lt_succ_of_lt hcur)]
    have := Cache.getRec_alloc_old c (nodeOfRFile f) hcur
    dsimp only
    rw [this]
  -- the new node's name in `c2` is the filtered name
  have hname2 : (c2.getRec (c.alloc (nodeOfRFile f)).2).name = part := by
    have hsh := shallow_addChild (c.alloc (nodeOfRFile f)).1 cur
      (c.alloc (nodeOfRFile f)).2 (c.alloc (nodeOfRFile f)).2
    rw [hc2, hsh.2.1]
    rw [show (c.alloc (nodeOfRFile f)).2 = c.store.length from rfl,
      Cache.getRec_alloc_new]
    exact hname
  unfold findChildByName
  obtain ⟨t, ht⟩ := hext.2.2.2 cur (by rw [hlen2]; exact Nat.lt_succ_of_lt hcur)
    _ hch2
  rw [ht]
  dsimp only
  -- old entries still do not match
  have hold : ((c.getRec cur).children.getD []).find?
      (fun cr => (c_g.getRec cr).name == part) = none := by
    cases hch : (c.getRec cur).children with
    | none => rfl
    | some l =>
      unfold findChildByName at hmiss
      rw [hch] at hmiss
      have hnames : ∀ x ∈ l,
          ((c_g.getRec x).name == part) = ((c.getRec x).name == part) := by
        intro x hx
        have hxv : x < c.store.length :=
          hWF.2.2 _ (Cache.getRec_mem c hcur) l hch x hx
        rw [(hextc.2.2.1 x hxv).2.1]
      exact (find?_congr_on l hnames).trans hmiss
  rw [List.append_assoc, find?_append_none hold]
  have hnew : ((c_g.getRec (c.alloc (nodeOfRFile f)).2).name == part) = true := by
    have hv2 : (c.alloc (nodeOfRFile f)).2 < c2.store.length := by
      rw [hlen2]; simp [Cache.alloc]
    rw [(hext.2.2.1 _ hv2).2.1, hname2]
    simp
  rw [List.cons_append, List.find?_cons, hnew]

theorem isDirectory_ext {c c' : Cache} {x : Nat} (hext : CacheExt c c')
    (hx : x < c.store.length) :
    (c'.getRec x).isDirectory = (c.getRec x).isDirectory := by
  unfold Node.isDirectory
  rw [(hext.2.2.1 x hx).2.2]

/-- Replaying a successful resolution on any pure extension of its final
cache is all cache hits: it returns the same node, leaves the cache
unchanged and issues zero remote calls. -/
theorem resolveSegs_again (r : Remote) (full : String) :
    ∀ (segs : List String) (cur : Nat) (c : Cache) (n : Nat) (c_f : Cache) (k : Nat),
      WF c → cur < c.store.length →
      resolveSegs r full segs cur c = (.ok n, c_f, k) →
      ∀ c_g, CacheExt c_f c_g →
        resolveSegs r full segs cur c_g = (.ok n, c_g, 0) := by
  intro segs
  induction segs with
  | nil =>
    intro cur c n c_f k hWF hcur h c_g hext
    rw [resolveSegs_nil] at h
    simp only [Prod.mk.injEq, Except.ok.injEq] at h
    obtain ⟨hn, hc, hk⟩ := h
    subst hn
    rw [resolveSegs_nil]
  | cons part rest ih =>
    intro cur c n c_f k hWF hcur h c_g hext
    cases hdir : (c.getRec cur).isDirectory with
    | false =>
      rw [resolveSegs_cons_notdir r full part rest hdir] at h
      simp only [Prod.mk.injEq] at h
      cases h.1
    | true =>
      cases hfind : findChildByName c cur part with
      | some ch =>
        rw [resolveSegs_cons_hit r full part rest hdir hfind] at h
        have hch : ch < c.store.length := findChildByName_valid hWF hcur hfind
        have hext_cf : CacheExt c c_f := by
          have he := resolveSegs_ext r full rest ch c
          rw [h] at he
          exact he
        have hext_cg : CacheExt c c_g := cacheExt_trans hext_cf hext
        have hdir_g : (c_g.getRec cur).isDirectory = true :=
          (isDirectory_ext hext_cg hcur).trans hdir
        rw [resolveSegs_cons_hit r full part rest hdir_g
          (findChildByName_mono hWF hcur hext_cg hfind)]
        exact ih ch c n c_f k hWF hch h c_g hext
      | none =>
        cases hr : r.listByName (c.getRec cur).id part with
        | error m =>
          rw [resolveSegs_cons_miss_err r full part rest hdir hfind hr] at h
          simp only [Prod.mk.injEq] at h
          cases h.1
        | ok files =>
          cases files with
          | nil =>
            rw [resolveSegs_cons_miss_empty r full part rest hdir hfind hr] at h
            simp only [Prod.mk.injEq] at h
            cases h.1
          | cons f fs =>
            rw [resolveSegs_cons_miss_found r full part rest hdir hfind hr] at h
            simp only [Prod.mk.injEq] at h
            obtain ⟨h1, h2, h3⟩ := h
            have hres2 : resolveSegs r full rest (c.alloc (nodeOfRFile f)).2
                ((c.alloc (nodeOfRFile f)).1.addChild cur (c.alloc (nodeOfRFile f)).2) =
                (.ok n, c_f,
                  (resolveSegs r full rest (c.alloc (nodeOfRFile f)).2
                    ((c.alloc (nodeOfRFile f)).1.addChild cur
                      (c.alloc (nodeOfRFile f)).2)).2.2) := by
              rw [← h1, ← h2]
            have hWF2 : WF ((c.alloc (nodeOfRFile f)).1.addChild cur
                (c.alloc (nodeOfRFile f)).2) :=
              WF_addChild (WF_alloc hWF rfl rfl)
                (by simpa using Nat.lt_succ_of_lt hcur) (by simp [Cache.alloc])
            have hnewRef : (c.alloc (nodeOfRFile f)).2 <
                ((c.alloc (nodeOfRFile f)).1.addChild cur
                  (c.alloc (nodeOfRFile f)).2).store.length := by
              simp [Cache.alloc]
            have hIH := ih _ _ n c_f _ hWF2 hnewRef hres2 c_g hext
            have hext_c2_cg : CacheExt ((c.alloc (nodeOfRFile f)).1.addChild cur
                (c.alloc (nodeOfRFile f)).2) c_g := by
              have he := resolveSegs_ext r full rest (c.alloc (nodeOfRFile f)).2
                ((c.alloc (nodeOfRFile f)).1.addChild cur (c.alloc (nodeOfRFile f)).2)
              rw [h2] at he
              exact cacheExt_trans he hext
            have hext_cg : CacheExt c c_g :=
              cacheExt_trans (cacheExt_trans (cacheExt_alloc c (nodeOfRFile f))
                (cacheExt_addChild _ cur _)) hext_c2_cg
            have hdir_g : (c_g.getRec cur).isDirectory = true :=
              (isDirectory_ext hext_cg hcur).trans hdir
            have hfind_g := findChildByName_after_attach hWF hcur hdir hfind
              (listByName_name hr f (List.mem_cons_self f fs)) hext_c2_cg
            rw [resolveSegs_cons_hit r full part rest hdir_g hfind_g]
            exact hIH

/-- Claim C1: resolving a path a second time in immediate succession (no
intervening mutation) issues zero remote calls, returns the same cached
node and leaves the cache unchanged, because every segment resolved on a
miss was materialized and attached via `addChild` and the second walk finds
it by name among the cached children. -/
theorem c1_resolve_twice_cached {c : Cache} (r : Remote) (p : String)
    {n : Nat} {c' : Cache} {k : Nat} (hWF : WF c)
    (h : resolvePath c r p = (.ok n, c', k)) :
    resolvePath c' r p = (.ok n, c', 0) := by
  unfold resolvePath at h ⊢
  by_cases hp : p = "/"
  · rw [if_pos hp] at h ⊢
    simp only [Prod.mk.injEq, Except.ok.injEq] at h
    obtain ⟨hn, hc, hk⟩ := h
    subst hn
    subst hc
    rfl
  · rw [if_neg hp] at h ⊢
    have hroot : c'.root = c.root := by
      have he := resolveSegs_ext r p (segsOf p) c.root c
      rw [h] at he
      exact he.1
    rw [hroot]
    exact resolveSegs_again r p (segsOf p) c.root c n c' k hWF hWF.1 h c'
      (cacheExt_refl c')

/-- Witness for claim C1: resolving `/d` once against `wRemoteD` issues one
remote call and attaches node 1; resolving again hits the cache. -/
theorem c1_witness : resolvePath wCacheD wRemoteD "/d" = (.ok 1, wCacheD, 0) :=
  @c1_resolve_twice_cached wCache wRemoteD "/d" 1 wCacheD 1 (by decide) (by decide)

/-- Claim C3 (amended): when path resolution finds zero remote entries for
a segment, the `PathNotFound` error carries the full requested path, and
its message is exactly `Path not found: ` followed by that full path. -/
theorem c3_path_not_found_names_full_path (r : Remote) (full : String) :
    (∀ (segs : List String) (cur : Nat) (c : Cache) (q : String)
      (c' : Cache) (k : Nat),
      resolveSegs r full segs cur c = (.error (.pathNotFound q), c', k) →
      q = full) ∧
    (∀ q : String, (RErr.pathNotFound q).message = "Path not found: " ++ q) := by
  constructor
  · intro segs
    induction segs with
    | nil =>
      intro cur c q c' k h
      rw [resolveSegs_nil] at h
      simp only [Prod.mk.injEq] at h
      cases h.1
    | cons part rest ih =>
      intro cur c q c' k h
      cases hdir : (c.getRec cur).isDirectory with
      | false =>
        rw [resolveSegs_cons_notdir r full part rest hdir] at h
        simp only [Prod.mk.injEq] at h
        cases h.1
      | true =>
        cases hfind : findChildByName c cur part with
        | some ch =>
          rw [resolveSegs_cons_hit r full part rest hdir hfind] at h
          exact ih ch c q c' k h
        | none =>
          cases hr : r.listByName (c.getRec cur).id part with
          | error m =>
            rw [resolveSegs_cons_miss_err r full part rest hdir hfind hr] at h
            simp only [Prod.mk.injEq] at h
            cases h.1
          | ok files =>
            cases files with
            | nil =>
              rw [resolveSegs_cons_miss_empty r full part rest hdir hfind hr] at h
              simp only [Prod.mk.injEq, Except.error.injEq,
                RErr.pathNotFound.injEq] at h
              exact h.1.symm
            | cons f fs =>
              rw [resolveSegs_cons_miss_found r full part rest hdir hfind hr] at h
              simp only [Prod.mk.injEq] at h
              obtain ⟨h1, h2, h3⟩ := h
              have hres : resolveSegs r full rest (c.alloc (nodeOfRFile f)).2
                  ((c.alloc (nodeOfRFile f)).1.addChild cur
                    (c.alloc (nodeOfRFile f)).2) =
                  (.error (.pathNotFound q),
                    (resolveSegs r full rest (c.alloc (nodeOfRFile f)).2
                      ((c.alloc (nodeOfRFile f)).1.addChild cur
                        (c.alloc (nodeOfRFile f)).2)).2.1,
                    (resolveSegs r full rest (c.alloc (nodeOfRFile f)).2
                      ((c.alloc (nodeOfRFile f)).1.addChild cur
                        (c.alloc (nodeOfRFile f)).2)).2.2) := by
                rw [← h1]
              exact ih _ _ q _ _ hres
  · intro q
    rfl

/-- Counterexample for claim C3 as stated: resolving `/a/b` when `/a`
exists but `b` does not yields a `PathNotFound` whose message carries the
full requested path `/a/b`, not the containing path `/a`. -/
theorem c3_counterexample :
    (resolvePath wCache wRemoteA "/a/b").1 = .error (.pathNotFound "/a/b") ∧
    (RErr.pathNotFound "/a/b").message = "Path not found: /a/b" ∧
    "/a/b" ≠ "/a" := by
  refine ⟨by decide, rfl, by decide⟩

/-- Witness for claim C3 at the concrete failed resolution of `/a/b`. -/
theorem c3_witness : "/a/b" = "/a/b" :=
  (c3_path_not_found_names_full_path wRemoteA "/a/b").1 ["a", "b"] 0 wCache
    "/a/b" wCacheAB 2 (by decide)

/-- Claim C7: a path that traverses through a File segment fails with
`NotADirectory` naming the file, with no further remote calls beyond those
of the prefix; a path whose final segment is a File resolves successfully
(witnessed on `/f.txt`). -/
theorem c7_not_a_directory_on_file_traversal (r : Remote) (full : String) :
    (∀ (segs rest : List String) (cur : Nat) (c : Cache) (n : Nat)
        (c_f : Cache) (k : Nat),
      resolveSegs r full segs cur c = (.ok n, c_f, k) →
      (c_f.getRec n).isFile = true → rest ≠ [] →
      resolveSegs r full (segs ++ rest) cur c =
        (.error (.notADirectory (c_f.getRec n).name), c_f, k)) ∧
    (resolvePath wCache wRemoteF "/f.txt").1 = .ok 1 := by
  constructor
  · intro segs
    induction segs with
    | nil =>
      intro rest cur c n c_f k h hfile hrest
      rw [resolveSegs_nil] at h
      simp only [Prod.mk.injEq, Except.ok.injEq] at h
      obtain ⟨hn, hc, hk⟩ := h
      rw [← hn, ← hc] at hfile
      rw [← hn, ← hc, ← hk]
      cases rest with
      | nil => exact absurd rfl hrest
      | cons p rs =>
        rw [List.nil_append]
        have hdir : (c.getRec cur).isDirectory = false := by
          unfold Node.isFile at hfile
          simpa using hfile
        rw [resolveSegs_cons_notdir r full p rs hdir]
    | cons part rest' ih =>
      intro rest cur c n c_f k h hfile hrest
      rw [List.cons_append]
      cases hdir : (c.getRec cur).isDirectory with
      | false =>
        rw [resolveSegs_cons_notdir r full part rest' hdir] at h
        simp only [Prod.mk.injEq] at h
        cases h.1
      | true =>
        cases hfind : findChildByName c cur part with
        | some ch =>
          rw [resolveSegs_cons_hit r full part rest' hdir hfind] at h
          rw [resolveSegs_cons_hit r full part (rest' ++ rest) hdir hfind]
          exact ih rest ch c n c_f k h hfile hrest
        | none =>
          cases hr : r.listByName (c.getRec cur).id part with
          | error m =>
            rw [resolveSegs_cons_miss_err r full part rest' hdir hfind hr] at h
            simp only [Prod.mk.injEq] at h
            cases h.1
          | ok files =>
            cases files with
            | nil =>
              rw [resolveSegs_cons_miss_empty r full part rest' hdir hfind hr] at h
              simp only [Prod.mk.injEq] at h
              cases h.1
            | cons f fs =>
              rw [resolveSegs_cons_miss_found r full part rest' hdir hfind hr] at h
              simp only [Prod.mk.injEq] at h
              obtain ⟨h1, h2, h3⟩ := h
              have hres : resolveSegs r full rest' (c.alloc (nodeOfRFile f)).2
                  ((c.alloc (nodeOfRFile f)).1.addChild cur
                    (c.alloc (nodeOfRFile f)).2) =
                  (.ok n, c_f,
                    (resolveSegs r full rest' (c.alloc (nodeOfRFile f)).2
                      ((c.alloc (nodeOfRFile f)).1.addChild cur
                        (c.alloc (nodeOfRFile f)).2)).2.2) := by
                rw [← h1, ← h2]
              have hIH := ih rest _ _ n c_f _ hres hfile hrest
              rw [resolveSegs_cons_miss_found r full part (rest' ++ rest) hdir hfind hr,
                hIH]
              rw [← h3]
  · decide

/-- Witness for claim C7: resolving `/f.txt/child` stops with
`NotADirectory` after the single remote call that resolved `f.txt`. -/
theorem c7_witness :
    resolveSegs wRemoteF "/f.txt/child" ["f.txt", "child"] 0 wCache =
      (.error (.notADirectory (wCacheF.getRec 1).name), wCacheF, 1) :=
  (c7_not_a_directory_on_file_traversal wRemoteF "/f.txt/child").1
    ["f.txt"] ["child"] 0 wCache 1 wCacheF 1 (by decide) (by decide) (by decide)

theorem getPathAux_none (c : Cache) :
    ∀ (fuel : Nat) (acc : String), c.getPathAux fuel none acc = "/" ++ acc := by
  intro fuel acc
  cases fuel <;> rfl

theorem getPathAux_chainUp (c : Cache) :
    ∀ (fuel x : Nat) (acc : String), ChainUp c fuel x →
      ∃ rest, c.getPathAux fuel (some x) acc =
        "/" ++ (c.getRec c.root).name ++ "/" ++ rest := by
  intro fuel
  induction fuel with
  | zero =>
    intro x acc h
    exact h.elim
  | succ fuel ih =>
    intro x acc h
    unfold ChainUp at h
    have e : c.getPathAux (fuel + 1) (some x) acc =
        c.getPathAux fuel (c.getRec x).parent ((c.getRec x).name ++ "/" ++ acc) := rfl
    cases hp : (c.getRec x).parent with
    | none =>
      rw [hp] at h
      refine ⟨acc, ?_⟩
      rw [e, hp, getPathAux_none, h]
      simp [String.append_assoc]
    | some p =>
      rw [hp] at h
      obtain ⟨rest, hrest⟩ := ih p ((c.getRec x).name ++ "/" ++ acc) h
      exact ⟨rest, by rw [e, hp]; exact hrest⟩

/-- Claim C10: `getPath` and resolution do not round-trip.  The root's own
path is a slash followed by the root's name (not `/`); every node attached
below the root gets a path whose first segment is the root's name; but
`resolve` reads the first segment as a child of the root, so resolving
`n.getPath()` does not in general return `n` — concretely, after caching
`/a`, `getPath` of that node is `/MyDrive/a` and resolving it fails with
`PathNotFound`. -/
theorem c10_getPath_resolve_mismatch :
    (∀ (c : Cache) (fuel : Nat), (c.getRec c.root).parent = none →
      c.getPath fuel c.root = "/" ++ (c.getRec c.root).name) ∧
    (∀ (c : Cache) (fuel x p : Nat), (c.getRec x).parent = some p →
      ChainUp c fuel p →
      ∃ rest, c.getPath fuel x = "/" ++ (c.getRec c.root).name ++ "/" ++ rest) ∧
    (wCacheA.getPath 2 0 = "/MyDrive" ∧ "/MyDrive" ≠ "/") ∧
    (wCacheA.getPath 2 1 = "/MyDrive/a" ∧
      (resolvePath wCacheA wRemoteA (wCacheA.getPath 2 1)).1 =
        .error (.pathNotFound "/MyDrive/a")) := by
  refine ⟨?_, ?_, ⟨by decide, by decide⟩, ⟨by decide, by decide⟩⟩
  · intro c fuel hp
    unfold Cache.getPath
    rw [hp, getPathAux_none]
  · intro c fuel x p hp hchain
    unfold Cache.getPath
    rw [hp]
    exact getPathAux_chainUp c fuel p (c.getRec x).name hchain

/-- Witness for claim C10 at the cached node for `/a`. -/
theorem c10_witness :
    (∃ rest, wCacheA.getPath 2 1 =
      "/" ++ (wCacheA.getRec wCacheA.root).name ++ "/" ++ rest) ∧
    wCacheA.getPath 2 0 = "/" ++ (wCacheA.getRec wCacheA.root).name :=
  ⟨c10_getPath_resolve_mismatch.2.1 wCacheA 2 1 0 (by decide) (by decide),
    c10_getPath_resolve_mismatch.1 wCacheA 2 (by decide)⟩

/-- Claim C5: `getSize()` on a File returns its stored byte size; on a
Folder it sums `getSize()` over the currently cached children, and returns
0 when the child set is empty or unpopulated; consequently `stat('/a').size`
for folder `/a` (remote children `x` of 10 bytes and `y` of 20 bytes) is 0
before `/a` is listed and 30 after `readdir('/a')`. -/
theorem c5_getSize_cached_children :
    (∀ (c : Cache) (fuel ref : Nat), (c.getRec ref).isFile = true →
      c.getSize (fuel + 1) ref = (c.getRec ref).size) ∧
    (∀ (c : Cache) (fuel ref : Nat), (c.getRec ref).isFile = false →
      c.getSize (fuel + 1) ref =
        (((c.getRec ref).children.getD []).map (fun cr => c.getSize fuel cr)).sum) ∧
    (∀ (c : Cache) (fuel ref : Nat), (c.getRec ref).isFile = false →
      ((c.getRec ref).children = none ∨ (c.getRec ref).children = some []) →
      c.getSize (fuel + 1) ref = 0) ∧
    ((statOp wCacheXY wRemoteXY "/a").1 = .ok ⟨true, false, 0, none, none⟩ ∧
      (statOp wCacheXYL wRemoteXY "/a").1 = .ok ⟨true, false, 30, none, none⟩) := by
  refine ⟨?_, ?_, ?_, by decide, by decide⟩
  · intro c fuel ref hfile
    simp [Cache.getSize, hfile]
  · intro c fuel ref hfile
    simp [Cache.getSize, hfile]
  · intro c fuel ref hfile hch
    rcases hch with hch | hch <;> simp [Cache.getSize, hfile, hch]

/-- Witness for claim C5: the cached file `f.txt` reports its stored size,
and the cached but unlisted folder `a` reports size 0. -/
theorem c5_witness :
    wCacheF.getSize 1 1 = (wCacheF.getRec 1).size ∧ wCacheA.getSize 1 1 = 0 :=
  ⟨c5_getSize_cached_children.1 wCacheF 0 1 (by decide),
    c5_getSize_cached_children.2.2.1 wCacheA 0 1 (by decide) (Or.inl (by decide))⟩

theorem updateFile_spec {r : Remote} {id : String} {nn nc ap rp : Option String}
    (hfail : r.fail = none) (hex : ∃ g ∈ r.files, g.id = id) :
    ∃ er, r.updateFile id nn nc ap rp = .ok er ∧ er.1.id = id ∧
      (∀ v, nn = some v → er.1.name = v) ∧
      (∀ v, nc = some v → er.1.content = v ∧ er.1.size = v.length) := by
  unfold Remote.updateFile
  rw [hfail]
  have hsome : (r.files.find? (fun f => f.id == id)).isSome := by
    rw [List.find?_isSome]
    obtain ⟨g, hg, hgid⟩ := hex
    exact ⟨g, hg, by simp [hgid]⟩
  cases hfind : r.files.find? (fun f => f.id == id) with
  | none => rw [hfind] at hsome; cases hsome
  | some g =>
    have hgid : g.id = id := by
      have := List.find?_some hfind
      simpa using this
    refine ⟨_, rfl, ?_, ?_, ?_⟩
    · unfold RFile.applyUpdate
      cases nn <;> cases nc <;> cases ap <;> cases rp <;> simp [hgid]
    · intro v hv
      subst hv
      unfold RFile.applyUpdate
      cases nc <;> cases ap <;> cases rp <;> simp
    · intro v hv
      subst hv
      unfold RFile.applyUpdate
      cases nn <;> cases ap <;> cases rp <;> simp

theorem listByName_mem {r : Remote} {pid part : String} {files : List RFile}
    (h : r.listByName pid part = .ok files) :
    r.fail = none ∧ ∀ f ∈ files, f ∈ r.files := by
  unfold Remote.listByName at h
  cases hfa : r.fail with
  | some m => rw [hfa] at h; cases h
  | none =>
    rw [hfa] at h
    simp only [Except.ok.injEq] at h
    subst h
    exact ⟨rfl, fun f hf => (List.mem_filter.mp hf).1⟩

theorem addChild_attach_spec {c : Cache} {cur : Nat} {n : Node}
    (hdir : (c.getRec cur).isDirectory = true) :
    (((c.alloc n).1.addChild cur (c.alloc n).2).getRec cur).children =
      some ((c.getRec cur).children.getD [] ++ [(c.alloc n).2]) ∧
    (((c.alloc n).1.addChild cur (c.alloc n).2).getRec (c.alloc n).2).parent =
      some cur := by
  have hcur : cur < c.store.length := valid_of_isDirectory hdir
  have hdir1 : ((c.alloc n).1.getRec cur).isDirectory = true := by
    rw [Cache.getRec_alloc_old c n hcur]; exact hdir
  have hstep : (c.alloc n).1.addChild cur (c.alloc n).2 =
      ((c.alloc n).1.modifyRec cur (fun m =>
        { m with children := some (m.children.getD [] ++ [(c.alloc n).2]) })).modifyRec
      (c.alloc n).2 (fun m => { m with parent := some cur }) := by
    unfold Cache.addChild
    rw [if_pos hdir1]
  constructor
  · have hkeep : ∀ y, ((((c.alloc n).1.modifyRec cur (fun m =>
        { m with children := some (m.children.getD [] ++ [(c.alloc n).2]) })).modifyRec
        (c.alloc n).2 (fun m => { m with parent := some cur })).getRec y).children =
        (((c.alloc n).1.modifyRec cur (fun m =>
        { m with children := some (m.children.getD [] ++ [(c.alloc n).2]) })).getRec
        y).children :=
      childrenOf_modify_keep (fun m => rfl)
    rw [hstep, hkeep cur,
      Cache.getRec_modifyRec_self _ _ (by simpa using Nat.lt_succ_of_lt hcur)]
    have ha := Cache.getRec_alloc_old c n hcur
    dsimp only
    rw [ha]
  · rw [hstep, Cache.getRec_modifyRec_self _ _ (by simp [Cache.alloc])]

/-- Claim C6: `writeFile` probes for a same-named sibling with a
name-filtered remote query against the resolved parent.  If the probe
returns an entry, the remote entry is updated in place (same id, new name
and content) and, when the parent's cached child set holds a node with that
id, that slot is replaced by the fresh node; otherwise a new remote entry
is created and a fresh node is attached to the parent via `addChild`.  In
both cases the returned node is the materialization of the remote entry. -/
theorem attach_newnode_fields {c : Cache} {cur : Nat} (n : Node) :
    (((c.alloc n).1.addChild cur (c.alloc n).2).getRec (c.alloc n).2).id = n.id ∧
    (((c.alloc n).1.addChild cur (c.alloc n).2).getRec (c.alloc n).2).name = n.name := by
  have hsh := shallow_addChild (c.alloc n).1 cur (c.alloc n).2 (c.alloc n).2
  exact ⟨hsh.1.trans (congrArg Node.id (Cache.getRec_alloc_new c n)),
    hsh.2.1.trans (congrArg Node.name (Cache.getRec_alloc_new c n))⟩

/-- Claim C6: `writeFile` probes for a same-named sibling with a
name-filtered remote query against the resolved parent.  If the probe
returns an entry, the remote entry is updated in place (same id, new name
and content) and, when the parent's cached child set holds a node with that
id, that slot is replaced by the fresh node; otherwise a new remote entry
is created and a fresh node is attached to the parent via `addChild`.  In
both cases the returned node is the materialization of the remote entry. -/
theorem c6_writeFile_update_or_create {c : Cache} (r : Remote) (p content : String)
    {parentNode : Nat} {c1 : Cache} {k : Nat}
    (hres : resolvePath c r (parentPathOf p) = (.ok parentNode, c1, k)) :
    (∀ f fs, r.listByName (c1.getRec parentNode).id (leafOf p) = .ok (f :: fs) →
      ∃ er r',
        r.updateFile f.id (some (leafOf p)) (some content) none none = .ok (er, r') ∧
        er.id = f.id ∧ er.name = leafOf p ∧ er.content = content ∧
        er.size = content.length ∧
        (writeFileOp c r p content).1 = .ok c1.store.length ∧
        (writeFileOp c r p content).2.2 = r' ∧
        ((writeFileOp c r p content).2.1.getRec c1.store.length) = nodeOfRFile er ∧
        (∀ l i, (c1.getRec parentNode).children = some l →
          l.findIdx? (fun cr =>
            ((c1.alloc (nodeOfRFile er)).1.getRec cr).id == f.id) = some i →
          ((writeFileOp c r p content).2.1.getRec parentNode).children =
            some (l.set i c1.store.length))) ∧
    (r.listByName (c1.getRec parentNode).id (leafOf p) = .ok [] →
      ∃ entry r',
        r.createFile (c1.getRec parentNode).id (leafOf p) "text/plain" content
          content.length = .ok (entry, r') ∧
        entry.id = "id-" ++ toString r.nextId ∧ entry.name = leafOf p ∧
        entry.size = content.length ∧
        (writeFileOp c r p content).1 = .ok c1.store.length ∧
        (writeFileOp c r p content).2.2 = r' ∧
        ((c1.getRec parentNode).isDirectory = true →
          ((writeFileOp c r p content).2.1.getRec parentNode).children =
            some ((c1.getRec parentNode).children.getD [] ++ [c1.store.length]) ∧
          ((writeFileOp c r p content).2.1.getRec c1.store.length).parent =
            some parentNode ∧
          ((writeFileOp c r p content).2.1.getRec c1.store.length).id = entry.id ∧
          ((writeFileOp c r p content).2.1.getRec c1.store.length).name =
            entry.name)) := by
  have hop : writeFileOp c r p content =
      (wrapErr "Failed to write file: " (writeFileBody c r p content).1,
        (writeFileBody c r p content).2.1, (writeFileBody c r p content).2.2) := rfl
  constructor
  · intro f fs hlist
    obtain ⟨hfail, hmem⟩ := listByName_mem hlist
    obtain ⟨er, hup, hid, hnm, hct⟩ := @updateFile_spec r f.id
      (some (leafOf p)) (some content) none none hfail
      ⟨f, hmem f (List.mem_cons_self f fs), rfl⟩
    refine ⟨er.1, er.2, hup, hid, hnm _ rfl, (hct _ rfl).1, (hct _ rfl).2, ?_⟩
    have hff : findFileInFolder r (c1.getRec parentNode).id (leafOf p) =
        .ok (some f) := by
      unfold findFileInFolder
      rw [hlist]
      rfl
    have hbody : writeFileBody c r p content =
        (let a := c1.alloc (nodeOfRFile er.1)
         let c2 :=
          match (a.1.getRec parentNode).children with
          | none => a.1
          | some l =>
            match l.findIdx? (fun cr => (a.1.getRec cr).id == f.id) with
            | none => a.1
            | some i =>
              a.1.modifyRec parentNode
                (fun n => { n with children := some (l.set i a.2) })
         (.ok a.2, c2, er.2)) := by
      unfold writeFileBody
      dsimp only
      rw [hres]
      dsimp only
      rw [hff]
      dsimp only
      rw [hup]
    refine ⟨?_, ?_, ?_, ?_⟩
    · rw [hop]
      dsimp only
      rw [hbody]
      rfl
    · rw [hop]
      dsimp only
      rw [hbody]
    · rw [hop]
      dsimp only
      rw [hbody]
      dsimp only
      cases hcc : ((c1.alloc (nodeOfRFile er.1)).1.getRec parentNode).children with
      | none => exact Cache.getRec_alloc_new c1 (nodeOfRFile er.1)
      | some l =>
        dsimp only
        cases hidx2 : l.findIdx? (fun cr =>
            ((c1.alloc (nodeOfRFile er.1)).1.getRec cr).id == f.id) with
        | none => exact Cache.getRec_alloc_new c1 (nodeOfRFile er.1)
        | some i =>
          dsimp only
          have hne : c1.store.length ≠ parentNode := by
            intro he
            rw [← he, Cache.getRec_alloc_new] at hcc
            cases hcc
          rw [Cache.getRec_modifyRec_ne _ _ hne]
          exact Cache.getRec_alloc_new c1 (nodeOfRFile er.1)
    · intro l i hch hidx
      have hvalid : parentNode < c1.store.length := by
        by_contra hv
        rw [Cache.getRec_invalid c1 _ (Nat.le_of_not_lt hv)] at hch
        cases hch
      have hcc : ((c1.alloc (nodeOfRFile er.1)).1.getRec parentNode).children =
          some l := by
        rw [Cache.getRec_alloc_old c1 _ hvalid, hch]
      rw [hop]
      dsimp only
      rw [hbody]
      dsimp only
      rw [hcc]
      dsimp only
      rw [hidx]
      dsimp only
      rw [Cache.getRec_modifyRec_self _ _ (by simpa using Nat.lt_succ_of_lt hvalid)]
      rfl
  · intro hlist
    obtain ⟨hfail, _⟩ := listByName_mem hlist
    have hff : findFileInFolder r (c1.getRec parentNode).id (leafOf p) =
        .ok none := by
      unfold findFileInFolder
      rw [hlist]
      rfl
    refine ⟨⟨"id-" ++ toString r.nextId, leafOf p, "text/plain", content.length,
        none, none, content, [(c1.getRec parentNode).id]⟩,
      ⟨r.files ++ [⟨"id-" ++ toString r.nextId, leafOf p, "text/plain",
        content.length, none, none, content, [(c1.getRec parentNode).id]⟩],
        none, r.nextId + 1⟩, ?_, rfl, rfl, rfl, ?_, ?_, ?_⟩
    case _ =>
      unfold Remote.createFile
      rw [hfail]
    all_goals
      have hcr : r.createFile (c1.getRec parentNode).id (leafOf p) "text/plain"
          content content.length =
          .ok (⟨"id-" ++ toString r.nextId, leafOf p, "text/plain", content.length,
              none, none, content, [(c1.getRec parentNode).id]⟩,
            ⟨r.files ++ [⟨"id-" ++ toString r.nextId, leafOf p, "text/plain",
              content.length, none, none, content, [(c1.getRec parentNode).id]⟩],
              none, r.nextId + 1⟩) := by
        unfold Remote.createFile
        rw [hfail]
    all_goals
      have hbody : writeFileBody c r p content =
          (.ok (c1.alloc (nodeOfRFile ⟨"id-" ++ toString r.nextId, leafOf p,
              "text/plain", content.length, none, none, content,
              [(c1.getRec parentNode).id]⟩)).2,
            (c1.alloc (nodeOfRFile ⟨"id-" ++ toString r.nextId, leafOf p,
              "text/plain", content.length, none, none, content,
              [(c1.getRec parentNode).id]⟩)).1.addChild parentNode
              (c1.alloc (nodeOfRFile ⟨"id-" ++ toString r.nextId, leafOf p,
                "text/plain", content.length, none, none, content,
                [(c1.getRec parentNode).id]⟩)).2,
            ⟨r.files ++ [⟨"id-" ++ toString r.nextId, leafOf p, "text/plain",
              content.length, none, none, content, [(c1.getRec parentNode).id]⟩],
              none, r.nextId + 1⟩) := by
        unfold writeFileBody
        dsimp only
        rw [hres]
        dsimp only
        rw [hff]
        dsimp only
        rw [hcr]
    · rw [hop]
      dsimp only
      rw [hbody]
      rfl
    · rw [hop]
      dsimp only
      rw [hbody]
    · intro hdirp
      rw [hop]
      dsimp only
      rw [hbody]
      dsimp only
      have hattach := addChild_attach_spec (n := nodeOfRFile ⟨"id-" ++
        toString r.nextId, leafOf p, "text/plain", content.length, none,
        none, content, [(c1.getRec parentNode).id]⟩) hdirp
      have hfields := @attach_newnode_fields c1 parentNode
        (nodeOfRFile ⟨"id-" ++ toString r.nextId, leafOf p, "text/plain",
          content.length, none, none, content, [(c1.getRec parentNode).id]⟩)
      exact ⟨hattach.1, hattach.2, hfields.1, hfields.2⟩

/-- Witness for claim C6 on the create branch: writing a new file under the
root attaches a fresh node and returns its reference. -/
theorem c6_witness :
    (writeFileOp wCache wRemoteA "/nf.txt" "hi").1 = .ok wCache.store.length := by
  obtain ⟨entry, r', hcr, hid, hnm, hsz, hres1, hrest⟩ :=
    (@c6_writeFile_update_or_create wCache wRemoteA "/nf.txt" "hi" 0 wCache 0
      (by decide)).2 (by decide)
  exact hres1

theorem wrapErr_error {α : Type} {pre m : String} {res : Except String α}
    (h : wrapErr pre res = .error m) :
    ∃ cause, m = pre ++ cause ∧ res = .error cause := by
  unfold wrapErr at h
  cases res with
  | error e =>
    simp only [Except.error.injEq] at h
    exact ⟨e, h.symm, rfl⟩
  | ok v => cases h

/-- Claim C8 (amended): every public operation re-raises lower-layer
failures exactly once, wrapped with its operation-name prefix and carrying
the original cause message (but not annotated with the path).  The first
half states that a resolution failure propagates as the wrapped resolver
message; the second half states that every error any operation returns is
its prefix applied to the raw cause raised inside the operation body. -/
theorem c8_errors_wrapped_once_with_operation_name :
    ((∀ (c : Cache) (r : Remote) (p : String) (e : RErr) (c1 : Cache) (k : Nat),
        resolvePath c r p = (.error e, c1, k) →
        readdirOp c r p = (.error ("Failed to read directory: " ++ e.message), c1, r)) ∧
      (∀ (c : Cache) (r : Remote) (p : String) (e : RErr) (c1 : Cache) (k : Nat),
        resolvePath c r (parentPathOf p) = (.error e, c1, k) →
        mkdirOp c r p = (.error ("Failed to create directory: " ++ e.message), c1, r)) ∧
      (∀ (c : Cache) (r : Remote) (p content : String) (e : RErr) (c1 : Cache) (k : Nat),
        resolvePath c r (parentPathOf p) = (.error e, c1, k) →
        writeFileOp c r p content =
          (.error ("Failed to write file: " ++ e.message), c1, r)) ∧
      (∀ (c : Cache) (r : Remote) (p : String) (e : RErr) (c1 : Cache) (k : Nat),
        resolvePath c r p = (.error e, c1, k) →
        readFileOp c r p = (.error ("Failed to read file: " ++ e.message), c1, r)) ∧
      (∀ (c : Cache) (r : Remote) (p : String) (e : RErr) (c1 : Cache) (k : Nat),
        resolvePath c r p = (.error e, c1, k) →
        unlinkOp c r p =
          (.error ("Failed to delete file/directory: " ++ e.message), c1, r)) ∧
      (∀ (c : Cache) (r : Remote) (a b : String) (e : RErr) (c1 : Cache) (k : Nat),
        resolvePath c r a = (.error e, c1, k) →
        renameOp c r a b = (.error ("Failed to rename/move: " ++ e.message), c1, r)) ∧
      (∀ (c : Cache) (r : Remote) (p : String) (e : RErr) (c1 : Cache) (k : Nat),
        resolvePath c r p = (.error e, c1, k) →
        statOp c r p = (.error ("Failed to get file stats: " ++ e.message), c1, r)) ∧
      (∀ (c : Cache) (r : Remote) (o : SearchOpts) (p : String) (e : RErr)
          (c1 : Cache) (k : Nat),
        resolvePath c r p = (.error e, c1, k) →
        searchOp c r o p = (.error ("Failed to search: " ++ e.message), c1, r)) ∧
      (∀ (c : Cache) (r : Remote) (sp dp : String) (e : RErr) (c1 : Cache) (k : Nat),
        resolvePath c r sp = (.error e, c1, k) →
        copyOp c r sp dp = (.error ("Failed to copy file: " ++ e.message), c1, r))) ∧
    ((∀ (c : Cache) (r : Remote) (p m : String) (st : Cache × Remote),
        readdirOp c r p = (.error m, st) →
        ∃ cause, m = "Failed to read directory: " ++ cause ∧
          (readdirBody c r p).1 = .error cause) ∧
      (∀ (c : Cache) (r : Remote) (p m : String) (st : Cache × Remote),
        mkdirOp c r p = (.error m, st) →
        ∃ cause, m = "Failed to create directory: " ++ cause ∧
          (mkdirBody c r p).1 = .error cause) ∧
      (∀ (c : Cache) (r : Remote) (p content m : String) (st : Cache × Remote),
        writeFileOp c r p content = (.error m, st) →
        ∃ cause, m = "Failed to write file: " ++ cause ∧
          (writeFileBody c r p content).1 = .error cause) ∧
      (∀ (c : Cache) (r : Remote) (p m : String) (st : Cache × Remote),
        readFileOp c r p = (.error m, st) →
        ∃ cause, m = "Failed to read file: " ++ cause ∧
          (readFileBody c r p).1 = .error cause) ∧
      (∀ (c : Cache) (r : Remote) (p m : String) (st : Cache × Remote),
        unlinkOp c r p = (.error m, st) →
        ∃ cause, m = "Failed to delete file/directory: " ++ cause ∧
          (unlinkBody c r p).1 = .error cause) ∧
      (∀ (c : Cache) (r : Remote) (a b m : String) (st : Cache × Remote),
        renameOp c r a b = (.error m, st) →
        ∃ cause, m = "Failed to rename/move: " ++ cause ∧
          (renameBody c r a b).1 = .error cause) ∧
      (∀ (c : Cache) (r : Remote) (p m : String) (st : Cache × Remote),
        statOp c r p = (.error m, st) →
        ∃ cause, m = "Failed to get file stats: " ++ cause ∧
          (statBody c r p).1 = .error cause) ∧
      (∀ (c : Cache) (r : Remote) (o : SearchOpts) (p m : String)
          (st : Cache × Remote),
        searchOp c r o p = (.error m, st) →
        ∃ cause, m = "Failed to search: " ++ cause ∧
          (searchBody c r o p).1 = .error cause) ∧
      (∀ (c : Cache) (r : Remote) (sp dp m : String) (st : Cache × Remote),
        copyOp c r sp dp = (.error m, st) →
        ∃ cause, m = "Failed to copy file: " ++ cause ∧
          (copyBody c r sp dp).1 = .error cause)) := by
  constructor
  · refine ⟨?_, ?_, ?_, ?_, ?_, ?_, ?_, ?_, ?_⟩
    · intro c r p e c1 k hres
      have hb : readdirBody c r p = (.error e.message, c1, r) := by
        unfold readdirBody
        rw [hres]
      show (wrapErr "Failed to read directory: " (readdirBody c r p).1,
        (readdirBody c r p).2.1, (readdirBody c r p).2.2) = _
      rw [hb]
      rfl
    · intro c r p e c1 k hres
      have hb : mkdirBody c r p = (.error e.message, c1, r) := by
        unfold mkdirBody
        dsimp only
        rw [hres]
      show (wrapErr "Failed to create directory: " (mkdirBody c r p).1,
        (mkdirBody c r p).2.1, (mkdirBody c r p).2.2) = _
      rw [hb]
      rfl
    · intro c r p content e c1 k hres
      have hb : writeFileBody c r p content = (.error e.message, c1, r) := by
        unfold writeFileBody
        dsimp only
        rw [hres]
      show (wrapErr "Failed to write file: " (writeFileBody c r p content).1,
        (writeFileBody c r p content).2.1, (writeFileBody c r p content).2.2) = _
      rw [hb]
      rfl
    · intro c r p e c1 k hres
      have hb : readFileBody c r p = (.error e.message, c1, r) := by
        unfold readFileBody
        rw [hres]
      show (wrapErr "Failed to read file: " (readFileBody c r p).1,
        (readFileBody c r p).2.1, (readFileBody c r p).2.2) = _
      rw [hb]
      rfl
    · intro c r p e c1 k hres
      have hb : unlinkBody c r p = (.error e.message, c1, r) := by
        unfold unlinkBody
        rw [hres]
      show (wrapErr "Failed to delete file/directory: " (unlinkBody c r p).1,
        (unlinkBody c r p).2.1, (unlinkBody c r p).2.2) = _
      rw [hb]
      rfl
    · intro c r a b e c1 k hres
      have hb : renameBody c r a b = (.error e.message, c1, r) := by
        unfold renameBody
        rw [hres]
      show (wrapErr "Failed to rename/move: " (renameBody c r a b).1,
        (renameBody c r a b).2.1, (renameBody c r a b).2.2) = _
      rw [hb]
      rfl
    · intro c r p e c1 k hres
      have hb : statBody c r p = (.error e.message, c1, r) := by
        unfold statBody
        rw [hres]
      show (wrapErr "Failed to get file stats: " (statBody c r p).1,
        (statBody c r p).2.1, (statBody c r p).2.2) = _
      rw [hb]
      rfl
    · intro c r o p e c1 k hres
      have hb : searchBody c r o p = (.error e.message, c1, r) := by
        unfold searchBody
        rw [hres]
      show (wrapErr "Failed to search: " (searchBody c r o p).1,
        (searchBody c r o p).2.1, (searchBody c r o p).2.2) = _
      rw [hb]
      rfl
    · intro c r sp dp e c1 k hres
      have hb : copyBody c r sp dp = (.error e.message, c1, r) := by
        unfold copyBody
        rw [hres]
      show (wrapErr "Failed to copy file: " (copyBody c r sp dp).1,
        (copyBody c r sp dp).2.1, (copyBody c r sp dp).2.2) = _
      rw [hb]
      rfl
  · refine ⟨?_, ?_, ?_, ?_, ?_, ?_, ?_, ?_, ?_⟩
    · intro c r p m st h
      exact wrapErr_error (congrArg Prod.fst h)
    · intro c r p m st h
      exact wrapErr_error (congrArg Prod.fst h)
    · intro c r p content m st h
      exact wrapErr_error (congrArg Prod.fst h)
    · intro c r p m st h
      exact wrapErr_error (congrArg Prod.fst h)
    · intro c r p m st h
      exact wrapErr_error (congrArg Prod.fst h)
    · intro c r a b m st h
      exact wrapErr_error (congrArg Prod.fst h)
    · intro c r p m st h
      exact wrapErr_error (congrArg Prod.fst h)
    · intro c r o p m st h
      exact wrapErr_error (congrArg Prod.fst h)
    · intro c r sp dp m st h
      exact wrapErr_error (congrArg Prod.fst h)

/-- Counterexample for claim C8 as stated: when the remote call inside
`readdir('/')` fails with `boom`, the raised error is
`Failed to read directory: boom` — it carries the operation name and the
cause, but no annotation with the path (the message contains no slash). -/
theorem c8_counterexample :
    readdirOp wCache wRemoteFail "/" =
      (.error "Failed to read directory: boom", wCache, wRemoteFail) ∧
    ¬ ('/' ∈ "Failed to read directory: boom".data) := by
  exact ⟨by decide, by decide⟩

/-- Witness for claim C8 at a concrete failing resolution inside
`readdir`. -/
theorem c8_witness :
    readdirOp wCache wRemoteFail "/x" =
      (.error ("Failed to read directory: " ++ (RErr.remote "boom").message),
        wCache, wRemoteFail) :=
  c8_errors_wrapped_once_with_operation_name.1.1 wCache wRemoteFail "/x"
    (.remote "boom") wCache 1 (by decide)

/-- Claim C2: after `rename('/a','/b')` completes successfully, resolving
`/b` succeeds and returns the very node reference that resolving `/a`
returned before the rename, resolving `/a` fails with `PathNotFound`, and
the node's id is unchanged — indeed the node record differs from the
pre-rename one only in its `name` field (the re-attachment keeps the same
parent here, since the rename stays inside the root). -/
theorem c2_rename_then_resolve (aId : String) (sz : Nat) (ct : String)
    (h : aId ≠ "root") :
    resolvePath wCache (c2Remote aId sz ct) "/a" =
      (.ok 1, c2Cache1 aId sz, 1) ∧
    renameOp wCache (c2Remote aId sz ct) "/a" "/b" =
      (.ok 1, c2CacheFinal aId sz, c2RemoteFinal aId sz ct) ∧
    resolvePath (c2CacheFinal aId sz) (c2RemoteFinal aId sz ct) "/b" =
      (.ok 1, c2CacheFinal aId sz, 0) ∧
    (resolvePath (c2CacheFinal aId sz) (c2RemoteFinal aId sz ct) "/a").1 =
      .error (.pathNotFound "/a") ∧
    ((c2CacheFinal aId sz).getRec 1).id = ((c2Cache1 aId sz).getRec 1).id ∧
    (c2CacheFinal aId sz).getRec 1 =
      { (c2Cache1 aId sz).getRec 1 with name := "b" } := by
  have h' : ¬ ("root" : String) = aId := fun he => h he.symm
  have hbeq1 : (("root" : String) == aId) = false := by
    rw [beq_eq_false_iff_ne]
    exact fun he => h he.symm
  have hbody : renameBody wCache (c2Remote aId sz ct) "/a" "/b" =
      (.ok 1, c2CacheFinal aId sz, c2RemoteFinal aId sz ct) := by
    simp [renameBody, resolvePath, resolveSegs, findChildByName, parentPathOf,
      leafOf, splitParts, splitSlash, joinSlash, segsOf, Remote.listByName,
      Remote.updateFile, RFile.applyUpdate, Cache.addChild, Cache.removeChild,
      Cache.modifyRec, Cache.setRec, Cache.alloc, Cache.getRec, wCache,
      initialCache, wRoot, wRootEntry, c2Remote, c2Entry, c2CacheFinal,
      c2RemoteFinal, nodeOfRFile, Node.isDirectory, Node.isFile,
      folderMimeType, List.findIdx?, hbeq1, h', dummyNode]
  refine ⟨rfl, ?_, rfl, rfl, rfl, rfl⟩
  unfold renameOp
  rw [hbody]
  rfl

/-- Witness for claim C2: the rename scenario at a concrete id, size and
content type. -/
theorem c2_witness :
    resolvePath wCache (c2Remote "aid7" 7 "data") "/a" =
      (.ok 1, c2Cache1 "aid7" 7, 1) ∧
    renameOp wCache (c2Remote "aid7" 7 "data") "/a" "/b" =
      (.ok 1, c2CacheFinal "aid7" 7, c2RemoteFinal "aid7" 7 "data") ∧
    resolvePath (c2CacheFinal "aid7" 7) (c2RemoteFinal "aid7" 7 "data") "/b" =
      (.ok 1, c2CacheFinal "aid7" 7, 0) ∧
    (resolvePath (c2CacheFinal "aid7" 7) (c2RemoteFinal "aid7" 7 "data") "/a").1 =
      .error (.pathNotFound "/a") ∧
    ((c2CacheFinal "aid7" 7).getRec 1).id = ((c2Cache1 "aid7" 7).getRec 1).id ∧
    (c2CacheFinal "aid7" 7).getRec 1 =
      { (c2Cache1 "aid7" 7).getRec 1 with name := "b" } :=
  c2_rename_then_resolve "aid7" 7 "data" (by decide)
